import Mathlib

/-
  Verification development for the toolsy dispatch and execution engine.

  Shallow embedding of the engine code: the error taxonomy and classification
  helpers, the two-layer validation pipeline of the Extractor, the timeout
  computation of Registry.Execute combined with the timeout middleware, the
  registry execution lifecycle (admission, hooks, panic recovery, chunk
  accounting), batch streaming, shutdown draining, and the dynamic-tool
  schema construction over an explicit heap (to state the no-mutation
  frame property).

  External collaborators (the JSON parser and the JSON Schema validator)
  are modelled as oracle inputs: the embedding takes their outcomes as data
  and embeds the engine control flow around them, exactly as the source
  consumes their results.
-/

namespace Toolsy

/-! ## Error taxonomy (errors file: sentinels, ClientError, SystemError) -/

/-- Go error values of the toolsy package. Sentinels are the package-level
`errors.New` values; `clientError` mirrors `ClientError` with `Err == nil`
and `clientErrorWrap` with a wrapped sentinel; `systemError` mirrors
`SystemError` (the code always sets its `Err` field); `panicErrorV` mirrors
the `panicError` wrapper for recovered panic values; `ctxCanceled` and
`ctxDeadlineExceeded` are the two context errors; `raw` is an arbitrary
foreign error; `streamAbortWrap` is the wrapper produced by
`wrapYieldError` (see below). -/
inductive GoErr where
  | toolNotFound
  | timeout
  | validation
  | shutdown
  | streamAborted
  | ctxCanceled
  | ctxDeadlineExceeded
  | clientError (reason : String) (retryable : Bool)
  | clientErrorWrap (reason : String) (retryable : Bool) (wrapped : GoErr)
  | systemError (cause : GoErr)
  | panicErrorV (msg : String)
  | raw (msg : String)
  | streamAbortWrap (cause : GoErr)
  deriving Repr, DecidableEq

/-- The `Error()` method of each error value.  `ClientError.Error` is
`"invalid tool input: " + Reason`; `SystemError.Error` is the fixed opaque
message; `panicError.Error` is `"panic: " + fmt.Sprint(p)`; sentinels carry
their `errors.New` texts. -/
def GoErr.message : GoErr → String
  | .toolNotFound => "tool not found"
  | .timeout => "tool execution timeout"
  | .validation => "validation failed"
  | .shutdown => "registry is shutting down"
  | .streamAborted => "stream aborted"
  | .ctxCanceled => "context canceled"
  | .ctxDeadlineExceeded => "context deadline exceeded"
  | .clientError reason _ => "invalid tool input: " ++ reason
  | .clientErrorWrap reason _ _ => "invalid tool input: " ++ reason
  | .systemError _ => "internal system error during tool execution"
  | .panicErrorV m => "panic: " ++ m
  | .raw m => m
  | .streamAbortWrap e => "stream aborted: " ++ e.message

/-- `errors.Is` over the unwrap chains: `ClientError.Unwrap` returns the
wrapped sentinel, `SystemError.Unwrap` returns the cause, and the
stream-abort wrapper unwraps both to the `ErrStreamAborted` sentinel and to
the underlying sink error. -/
def errorsIs : GoErr → GoErr → Bool
  | e, target =>
    (e == target) ||
      match e with
      | .clientErrorWrap _ _ w => errorsIs w target
      | .systemError c => errorsIs c target
      | .streamAbortWrap c => (target == GoErr.streamAborted) || errorsIs c target
      | _ => false

/-- `IsClientError`: `errors.As(err, &ce)` for `*ClientError`, looking
through every unwrap layer. -/
def isClientError : GoErr → Bool
  | .clientError _ _ => true
  | .clientErrorWrap _ _ _ => true
  | .systemError c => isClientError c
  | .streamAbortWrap c => isClientError c
  | _ => false

/-- `IsSystemError`: `errors.As(err, &se)` for `*SystemError`, looking
through every unwrap layer. -/
def isSystemError : GoErr → Bool
  | .systemError _ => true
  | .clientErrorWrap _ _ w => isSystemError w
  | .streamAbortWrap c => isSystemError c
  | _ => false

/-- `wrapJSONParseError`: a JSON unmarshal failure becomes a `ClientError`
whose reason prefixes the parser message; no sentinel is wrapped. -/
def wrapJSONParseError (parserMsg : String) : GoErr :=
  .clientError ("json parse error: " ++ parserMsg) false

/-- `validateAgainstSchema` failure shape: the structural validator message
becomes a `ClientError` wrapping the `ErrValidation` sentinel. -/
def schemaViolationError (validatorMsg : String) : GoErr :=
  .clientErrorWrap validatorMsg false .validation

/-- `wrapHandlerError`: a handler error that is already Client-Class passes
through unchanged; every other handler error is wrapped as a `SystemError`. -/
def wrapHandlerError (e : GoErr) : GoErr :=
  if isClientError e then e else .systemError e

/-- Modelled from the spec: the repository's current errors file (defining
`ErrStreamAborted` and `wrapYieldError`) is not present in the sources, only
its callers and tests are. Per the spec, a sink rejection becomes the
stream-aborted sentinel, wrapped so that `errors.Is` identity checks succeed
through the wrapping; `streamAbortWrap` unwraps both to the sentinel and to
the original sink error. -/
def wrapYieldError (sinkErr : GoErr) : GoErr :=
  .streamAbortWrap sinkErr

/-! ## Extractor: two-layer validation pipeline (ParseAndValidate) -/

/-- Oracle inputs of one `ParseAndValidate` call: outcomes of the external
JSON parser (twice: into a generic value, then into the concrete shape) and
of the external schema validator, plus the reflection facts about the shape
`T` and the outcome of its business-rule `Validate` method when invoked.
`none` means the step succeeded / the method returned nil. -/
structure ParseInput where
  parseErr : Option String
  schemaErr : Option String
  decodeErr : Option String
  valueImplements : Bool
  ptrImplements : Bool
  typeIsPointer : Bool
  validateResult : Option GoErr
  deriving Repr, DecidableEq

/-- `validateCustom(args)`: runs `Validate` only when the value implements
`Validatable`; returns the validation outcome together with the number of
`Validate` invocations performed (0 or 1). -/
def validateCustomRuns (implements : Bool) (res : Option GoErr) : Option GoErr × Nat :=
  if implements then (res, 1) else (none, 0)

/-- `runLayer2Validation`: try `args` first; if `args` implements
`Validatable`, stop; if the type of `args` is nil or a pointer, stop;
otherwise try `&args` (pointer receiver on a value type). Returns the
error outcome and the total number of `Validate` invocations. -/
def runLayer2Validation (inp : ParseInput) : Option GoErr × Nat :=
  let r1 := validateCustomRuns inp.valueImplements inp.validateResult
  match r1.1 with
  | some e => (some e, r1.2)
  | none =>
    if inp.valueImplements then (none, r1.2)
    else if inp.typeIsPointer then (none, r1.2)
    else
      let r2 := validateCustomRuns inp.ptrImplements inp.validateResult
      (r2.1, r1.2 + r2.2)

/-- `Extractor.ParseAndValidate`: Layer 1 (generic parse, structural schema
check, concrete decode), then Layer 2 (business rule). A Layer-2 error that
is already Client-Class passes through unchanged; any other Layer-2 error is
wrapped into a `ClientError` tagged with the validation sentinel. Returns
the error outcome (`none` = success) and the `Validate` invocation count. -/
def parseAndValidate (inp : ParseInput) : Option GoErr × Nat :=
  match inp.parseErr with
  | some m => (some (wrapJSONParseError m), 0)
  | none =>
    match inp.schemaErr with
    | some m => (some (schemaViolationError m), 0)
    | none =>
      match inp.decodeErr with
      | some m => (some (wrapJSONParseError m), 0)
      | none =>
        let r := runLayer2Validation inp
        match r.1 with
        | none => (none, r.2)
        | some e =>
          if isClientError e then (some e, r.2)
          else (some (.clientErrorWrap e.message false .validation), r.2)

/-! ## Timeout computation (Registry.Execute step 4 + timeout middleware) -/

/-- Deadlines measured as durations from the instant `Registry.Execute`
applies its timeout; `none` is a context with no deadline.
`context.WithTimeout` never extends an inherited deadline: the child
deadline is the minimum of the parent deadline and the fresh one. -/
def withTimeoutDeadline : Option Int → Int → Option Int
  | none, d => some d
  | some e, d => some (min e d)

/-- `timeoutTool.Timeout()`: the middleware reports its own timeout when
positive, otherwise delegates to the wrapped tool's metadata. -/
def timeoutToolMeta (d innerMeta : Int) : Int :=
  if d > 0 then d else innerMeta

/-- Registry.Execute steps: start from the registry default, override it
with the tool's metadata timeout when that is positive, then apply the
resulting deadline when positive. -/
def registryDeadline (regDefault metaTimeout : Int) : Option Int :=
  let timeout := if metaTimeout > 0 then metaTimeout else regDefault
  if timeout > 0 then withTimeoutDeadline none timeout else none

/-- `timeoutTool.Execute`: when the middleware timeout is not positive it
delegates without modification, otherwise it wraps the incoming context
with its own timeout. -/
def timeoutToolDeadline (ctxDeadline : Option Int) (d : Int) : Option Int :=
  if d ≤ 0 then ctxDeadline else withTimeoutDeadline ctxDeadline d

/-- Effective deadline of a call whose tool is wrapped by
`WithTimeoutMiddleware d` (the wrapped tool itself declaring no timeout),
executed by a registry with default timeout `regDefault`: the registry
applies its computed timeout to the context, then the middleware applies
its own on the inner context. -/
def effectiveDeadline (regDefault d : Int) : Option Int :=
  timeoutToolDeadline (registryDeadline regDefault (timeoutToolMeta d 0)) d

/-! ## Registry options (NewRegistry defaults) -/

/-- `registryOptions`: configuration assembled by `NewRegistry`. Hooks are
modelled by presence flags. Duration in nanoseconds, as `time.Duration`. -/
structure RegistryOptions where
  timeout : Int
  maxConcurrency : Int
  recoverPanics : Bool
  hasOnBefore : Bool := false
  hasOnAfter : Bool := false
  hasOnChunk : Bool := false
  deriving Repr, DecidableEq

/-- The literal defaults written in `NewRegistry` before any option runs:
5 seconds, 10 concurrent executions, panic recovery on. -/
def defaultRegistryOptions : RegistryOptions :=
  { timeout := 5 * 1000000000, maxConcurrency := 10, recoverPanics := true }

/-- `NewRegistry` option folding: each supplied option mutates the options
record in order. -/
def newRegistryOptions (opts : List (RegistryOptions → RegistryOptions)) : RegistryOptions :=
  opts.foldl (fun o f => f o) defaultRegistryOptions

/-- `WithDefaultTimeout`. -/
def withDefaultTimeout (d : Int) : RegistryOptions → RegistryOptions :=
  fun o => { o with timeout := d }

/-- `WithMaxConcurrency`. -/
def withMaxConcurrency (n : Int) : RegistryOptions → RegistryOptions :=
  fun o => { o with maxConcurrency := n }

/-- `WithRecoverPanics`. -/
def withRecoverPanics (enable : Bool) : RegistryOptions → RegistryOptions :=
  fun o => { o with recoverPanics := enable }

/-- `NewRegistry` semaphore construction: a bounded semaphore only when the
configured bound is positive; otherwise the admission limit is disabled. -/
def semaphoreBound (o : RegistryOptions) : Option Int :=
  if o.maxConcurrency > 0 then some o.maxConcurrency else none

/-! ## Chunks and tool behaviour (Tool.Execute as an interaction tree) -/

/-- `Chunk`: one stream event. Fields as in the source: call identifier,
tool name, event kind, payload (`data` modelled as a string of bytes),
error flag, optional side-channel metadata. -/
structure Chunk where
  callID : String := ""
  toolName : String := ""
  event : String := ""
  data : String := ""
  isError : Bool := false
  metadata : Option String := none
  deriving Repr, DecidableEq

/-- `EventResult` chunk kind constant. -/
def EventResult : String := "result"

/-- `EventProgress` chunk kind constant. -/
def EventProgress : String := "progress"

/-- A tool execution viewed from the registry: it either finishes with an
error outcome (`done`, where `none` is a nil error), raises a panic, or
emits one chunk through the yield callback and continues with `onOk` when
the yield returned nil or with `onErr e` when the yield returned `e`.
This is `Tool.Execute` with the yield callback made explicit. -/
inductive ToolBeh where
  | done (e : Option GoErr)
  | panicked (msg : String)
  | emit (c : Chunk) (onOk : ToolBeh) (onErr : GoErr → ToolBeh)

/-- One reaction of the caller's sink to one chunk: return nil, return an
error, or panic. -/
inductive SinkBeh where
  | accept
  | reject (e : GoErr)
  | crash (msg : String)
  deriving Repr, DecidableEq

/-- Instrumentation of one execution: the summary counters maintained by
the registry's wrapped yield (`delivered`, `bytes`), plus how many times
the caller's sink was invoked, how many times the per-chunk hook fired,
and the chunks handed to the sink in order (registry-stamped). -/
structure StreamStats where
  delivered : Nat := 0
  bytes : Nat := 0
  sinkCalls : Nat := 0
  onChunkCalls : Nat := 0
  sent : List Chunk := []
  deriving Repr, DecidableEq

/-- Outcome of the body of `Registry.Execute` after admission: the tool
call returned an error outcome, or a panic unwound out of it (from the
handler or from the sink). -/
inductive BodyRes where
  | norm (e : Option GoErr)
  | panicked (msg : String)
  deriving Repr, DecidableEq

/-- The registry's wrapped yield stamps the chunk with the call identifier
and tool name when the tool left them empty. -/
def stampChunk (callID toolName : String) (c : Chunk) : Chunk :=
  { c with
    callID := if c.callID = "" then callID else c.callID,
    toolName := if c.toolName = "" then toolName else c.toolName }

/-- Runs `summary.Error = tool.Execute(ctx, call.Args, toolYield)` with the
registry's wrapped yield: each chunk is stamped and handed to the caller's
sink; when the sink returns nil and the chunk is not error-flagged the
delivered count and byte total grow and the per-chunk hook fires; the
sink's return value goes back to the tool; a sink panic unwinds.
The sink is modelled as a function from the invocation index. -/
def runBody (callID toolName : String) (hasOnChunk : Bool) (sink : Nat → SinkBeh) :
    ToolBeh → StreamStats → BodyRes × StreamStats
  | .done e, st => (.norm e, st)
  | .panicked m, st => (.panicked m, st)
  | .emit c onOk onErr, st =>
    let c1 := stampChunk callID toolName c
    match sink st.sinkCalls with
    | .crash m =>
      (.panicked m, { st with sinkCalls := st.sinkCalls + 1, sent := st.sent ++ [c1] })
    | .accept =>
      let st1 :=
        if c1.isError then
          { st with sinkCalls := st.sinkCalls + 1, sent := st.sent ++ [c1] }
        else
          { st with
            sinkCalls := st.sinkCalls + 1,
            sent := st.sent ++ [c1],
            delivered := st.delivered + 1,
            bytes := st.bytes + c1.data.length,
            onChunkCalls := st.onChunkCalls + (if hasOnChunk then 1 else 0) }
      runBody callID toolName hasOnChunk sink onOk st1
    | .reject e =>
      runBody callID toolName hasOnChunk sink (onErr e)
        { st with sinkCalls := st.sinkCalls + 1, sent := st.sent ++ [c1] }

/-! ## Registry.Execute lifecycle -/

/-- Outcome of the admission-slot acquisition: a slot was acquired, or the
context ended first (cancellation or deadline). -/
inductive SemOutcome where
  | acquired
  | failCanceled
  | failDeadline
  deriving Repr, DecidableEq

/-- The facts about registry state and configuration that one `Execute`
call observes: draining flag, whether the target name is registered,
the semaphore outcome, panic recovery, and which hooks are configured. -/
structure ExecConfig where
  draining : Bool := false
  registered : Bool := true
  semOutcome : SemOutcome := .acquired
  recoverPanics : Bool := true
  hasOnBefore : Bool := false
  hasOnAfter : Bool := true
  hasOnChunk : Bool := false
  deriving Repr, DecidableEq

/-- `ExecutionSummary`. -/
structure Summary where
  callID : String := ""
  toolName : String := ""
  error : Option GoErr := none
  chunksDelivered : Nat := 0
  totalBytes : Nat := 0
  deriving Repr, DecidableEq

/-- What `Execute` does at its boundary: return an error outcome, or let a
panic escape (only possible when panic recovery is disabled). -/
inductive ExecResult where
  | ret (e : Option GoErr)
  | panicOut (msg : String)
  deriving Repr, DecidableEq

/-- Everything observable about one `Execute` call: its result, how often
each hook fired, the summary the after-execution hook received, and the
stream instrumentation. -/
structure ExecOut where
  result : ExecResult
  onBeforeCalls : Nat := 0
  onAfterCalls : Nat := 0
  afterSummary : Option Summary := none
  stats : StreamStats := {}
  deriving Repr, DecidableEq

/-- `Registry.Execute`: reject with the shutdown sentinel while draining;
reject with the not-found sentinel for an unknown name; propagate the
context error from semaphore acquisition (mapping a deadline to
`ErrTimeout`); then run the before hook, the tool body with the wrapped
yield, panic recovery, and always the after hook exactly once — the
recovery defer runs before the after-hook defer, so a recovered panic is
recorded in the summary the hook sees; without recovery the panic escapes
but the after-hook defer still runs during unwinding, with the summary's
error still unset. -/
def registryExecute (cfg : ExecConfig) (callID toolName : String) (tool : ToolBeh)
    (sink : Nat → SinkBeh) : ExecOut :=
  if cfg.draining then
    { result := .ret (some .shutdown) }
  else if !cfg.registered then
    { result := .ret (some .toolNotFound) }
  else
    match cfg.semOutcome with
    | .failCanceled => { result := .ret (some .ctxCanceled) }
    | .failDeadline => { result := .ret (some .timeout) }
    | .acquired =>
      let before := if cfg.hasOnBefore then 1 else 0
      let r := runBody callID toolName cfg.hasOnChunk sink tool {}
      match r.1 with
      | .norm e =>
        let summary : Summary :=
          { callID := callID, toolName := toolName, error := e,
            chunksDelivered := r.2.delivered, totalBytes := r.2.bytes }
        { result := .ret e,
          onBeforeCalls := before,
          onAfterCalls := if cfg.hasOnAfter then 1 else 0,
          afterSummary := if cfg.hasOnAfter then some summary else none,
          stats := r.2 }
      | .panicked m =>
        if cfg.recoverPanics then
          let e : GoErr := .systemError (.panicErrorV m)
          let summary : Summary :=
            { callID := callID, toolName := toolName, error := some e,
              chunksDelivered := r.2.delivered, totalBytes := r.2.bytes }
          { result := .ret (some e),
            onBeforeCalls := before,
            onAfterCalls := if cfg.hasOnAfter then 1 else 0,
            afterSummary := if cfg.hasOnAfter then some summary else none,
            stats := r.2 }
        else
          let summary : Summary :=
            { callID := callID, toolName := toolName, error := none,
              chunksDelivered := r.2.delivered, totalBytes := r.2.bytes }
          { result := .panicOut m,
            onBeforeCalls := before,
            onAfterCalls := if cfg.hasOnAfter then 1 else 0,
            afterSummary := if cfg.hasOnAfter then some summary else none,
            stats := r.2 }

/-! ## Handler builders (NewStreamTool pipeline) -/

/-- The builder's wrapped yield: a yield error is converted through
`wrapYieldError` before the handler function sees it. -/
def wrapYieldBeh : ToolBeh → ToolBeh
  | .done e => .done e
  | .panicked m => .panicked m
  | .emit c onOk onErr =>
    .emit c (wrapYieldBeh onOk) (fun e => wrapYieldBeh (onErr (wrapYieldError e)))

/-- The builder's classification of the handler function's return value:
a Client-Class error passes through, an error carrying the stream-aborted
sentinel passes through, anything else is wrapped by `wrapHandlerError`. -/
def streamResultErr : Option GoErr → Option GoErr
  | none => none
  | some e =>
    if isClientError e then some e
    else if errorsIs e .streamAborted then some e
    else some (wrapHandlerError e)

/-- Applies a transformation to the terminal outcome of a behaviour. -/
def mapDoneBeh (f : Option GoErr → Option GoErr) : ToolBeh → ToolBeh
  | .done e => .done (f e)
  | .panicked m => .panicked m
  | .emit c onOk onErr => .emit c (mapDoneBeh f onOk) (fun e => mapDoneBeh f (onErr e))

/-- `NewStreamTool`'s execute path: run `ParseAndValidate` first (its error
is returned untouched), then the handler with the wrapped yield, then
classify the handler's return value. -/
def newStreamToolBeh (parseResult : Option GoErr) (handler : ToolBeh) : ToolBeh :=
  match parseResult with
  | some e => .done (some e)
  | none => mapDoneBeh streamResultErr (wrapYieldBeh handler)

/-- A handler function that emits the given chunks in order and stops at
the first yield error, returning it — the shape of every streaming handler
in the repository's tests and examples. -/
def emitAllBeh : List Chunk → ToolBeh
  | [] => .done none
  | c :: rest => .emit c (emitAllBeh rest) (fun e => .done (some e))

/-- A sink that accepts the first `k` fragments and rejects every later
one with the fixed error `e`. -/
def rejectAfter (k : Nat) (e : GoErr) : Nat → SinkBeh :=
  fun i => if i < k then .accept else .reject e

/-- Total payload size of a list of chunks. -/
def chunkBytes (cs : List Chunk) : Nat :=
  (cs.map (fun c => c.data.length)).sum

/-! ## ExecuteBatchStream (partial-success policy) -/

/-- One call of a batch. -/
structure BatchCall where
  id : String := ""
  toolName : String := ""
  deriving Repr, DecidableEq

/-- One batch entry: the call, whether its target name is registered, and
the behaviour of the target tool. -/
structure BatchItem where
  call : BatchCall
  registered : Bool := true
  tool : ToolBeh := .done none

/-- The batch goroutine's own yield wrapper stamps the chunk with the
call's identifier and tool name when empty (a second, idempotent stamping
after the registry's). -/
def batchStamp (call : BatchCall) (c : Chunk) : Chunk :=
  stampChunk call.id call.toolName c

/-- The error-flagged chunk `ExecuteBatchStream` sends when one call's
`Execute` returned an error. -/
def errChunk (call : BatchCall) (e : GoErr) : Chunk :=
  { callID := call.id, toolName := call.toolName, event := EventResult,
    data := e.message, isError := true }

/-- One batch goroutine: run the call through `Registry.Execute` with the
batch's serialized yield (the caller's sink accepting every chunk), and on
a per-call error send it as an error-flagged chunk, ignoring the yield's
return value. `none` models the whole program crashing on an unrecovered
panic. -/
def runBatchItem (cfg : ExecConfig) (item : BatchItem) : Option (List Chunk) :=
  let out := registryExecute { cfg with registered := item.registered }
    item.call.id item.call.toolName item.tool (fun _ => .accept)
  match out.result with
  | .panicOut _ => none
  | .ret none => some (out.stats.sent.map (batchStamp item.call))
  | .ret (some e) => some (out.stats.sent.map (batchStamp item.call) ++ [errChunk item.call e])

/-- Effectful map over a list where each element may fail. -/
def mapOpt {α β : Type} (f : α → Option β) : List α → Option (List β)
  | [] => some []
  | a :: rest =>
    match f a, mapOpt f rest with
    | some b, some bs => some (b :: bs)
    | _, _ => none

/-- `ExecuteBatchStream`: every call runs to completion (the deliveries are
serialized by a mutex; the model serializes them in call order — the
stated properties are interleaving-invariant); the method's return value is
`ctx.Err()` when the caller's context has ended by the time all goroutines
are done, and nil otherwise, regardless of per-call errors. -/
def executeBatchStream (cfg : ExecConfig) (ctxErr : Option GoErr)
    (items : List BatchItem) : Option (List Chunk × Option GoErr) :=
  match items with
  | [] => some ([], none)
  | _ =>
    (mapOpt (runBatchItem cfg) items).map fun outs => (outs.flatten, ctxErr)

/-! ## Shutdown draining -/

/-- The registry state that `Shutdown` and `Execute` admission interact
with: the draining flag (the closed `done` channel), the in-flight counter
(the wait group), and bookkeeping of admitted and naturally finished
calls. -/
structure DrainState where
  draining : Bool := false
  inFlight : Nat := 0
  admittedCalls : Nat := 0
  finishedCalls : Nat := 0
  deriving Repr, DecidableEq

/-- The admission prefix of `Execute` against the drain state: while
draining every new call is rejected with the shutdown sentinel; otherwise
an unknown name is rejected with the not-found sentinel; otherwise the
call is admitted and joins the wait group. -/
def admitCall (s : DrainState) (registered : Bool) : DrainState × Option GoErr :=
  if s.draining then (s, some .shutdown)
  else if !registered then (s, some .toolNotFound)
  else ({ s with inFlight := s.inFlight + 1, admittedCalls := s.admittedCalls + 1 }, none)

/-- An admitted call finishing: it leaves the wait group on every exit
path; nothing on this path consults the draining flag. -/
def finishCall (s : DrainState) : DrainState :=
  { s with inFlight := s.inFlight - 1, finishedCalls := s.finishedCalls + 1 }

/-- `Registry.Shutdown`: a call that finds the draining flag already set
returns nil immediately without waiting; the first call sets the flag and
then waits for the wait group or for its context, whichever comes first.
`finishesBeforeCtx` is how many in-flight calls finish naturally before
the supplied context ends: when it covers all of them the wait group
empties and Shutdown returns nil, otherwise the context error returns. -/
def shutdownCall (s : DrainState) (finishesBeforeCtx : Nat) (ctxErr : GoErr) :
    DrainState × Option GoErr :=
  if s.draining then (s, none)
  else
    let s1 := { s with draining := true }
    if s1.inFlight ≤ finishesBeforeCtx then
      ({ s1 with inFlight := 0, finishedCalls := s1.finishedCalls + s1.inFlight }, none)
    else
      ({ s1 with inFlight := s1.inFlight - finishesBeforeCtx,
                 finishedCalls := s1.finishedCalls + finishesBeforeCtx }, some ctxErr)

/-! ## Heap model of JSON documents (NewDynamicTool schema construction)

Go's `map[string]any` schema documents are mutable reference structures:
to state the frame property (the caller's document is never mutated) the
documents live in an explicit heap of addressed nodes. `json.Marshal` +
`json.Unmarshal` round-tripping — the deep copy — allocates a fresh,
disjoint copy; `applyStrictMode` and `stripSchemaIDs` then mutate nodes in
place through the copy's root. All recursive walks carry fuel (Go documents
produced by `json.Unmarshal` are finite trees, so enough fuel exists). -/

/-- One JSON value node: a scalar leaf (string, number, bool or null,
abstracted as a literal), an array of child addresses, or an object with
named child addresses. -/
inductive JNode where
  | scalar (lit : String)
  | arr (items : List Nat)
  | obj (fields : List (String × Nat))
  deriving Repr, DecidableEq

/-- A heap of JSON nodes. -/
def Heap : Type := Nat → Option JNode

/-- Store a node at an address. -/
def heapWrite (h : Heap) (a : Nat) (n : JNode) : Heap :=
  fun x => if x = a then some n else h x

/-- Child addresses of a node. -/
def nodeChildren : JNode → List Nat
  | .scalar _ => []
  | .arr items => items
  | .obj fs => fs.map Prod.snd

/-- Every node stored at an address at or above the watermark `n` points
only at addresses at or above `n` (the freshly built region is closed). -/
def HighClosed (h : Heap) (n : Nat) : Prop :=
  ∀ a node, n ≤ a → h a = some node → ∀ c ∈ nodeChildren node, n ≤ c

/-- Go map lookup on an object's field list. -/
def fieldsGet : List (String × Nat) → String → Option Nat
  | [], _ => none
  | (k, a) :: rest, key => if k = key then some a else fieldsGet rest key

/-- Go map assignment on an object's field list. -/
def fieldsSet : List (String × Nat) → String → Nat → List (String × Nat)
  | [], key, v => [(key, v)]
  | (k, a) :: rest, key, v =>
    if k = key then (key, v) :: rest else (k, a) :: fieldsSet rest key v

/-- Go map `delete` on an object's field list. -/
def fieldsDel : List (String × Nat) → String → List (String × Nat)
  | [], _ => []
  | (k, a) :: rest, key =>
    if k = key then fieldsDel rest key else (k, a) :: fieldsDel rest key

/-- Insertion into a sorted string list (`slices.Sort` helper). -/
def insertSorted (s : String) : List String → List String
  | [] => [s]
  | x :: rest => if s ≤ x then s :: x :: rest else x :: insertSorted s rest

/-- `slices.Sort` on strings. -/
def sortStrings : List String → List String
  | [] => []
  | x :: rest => insertSorted x (sortStrings rest)

/-- Deep copy of a list of array items, parameterized by the copy of one
node. -/
def deepCopyListF (rec : Heap → Nat → Nat → Option (Heap × Nat × Nat)) :
    Heap → List Nat → Nat → Option (Heap × List Nat × Nat)
  | h, [], fresh => some (h, [], fresh)
  | h, a :: rest, fresh =>
    match rec h a fresh with
    | none => none
    | some (h1, a1, f1) =>
      match deepCopyListF rec h1 rest f1 with
      | none => none
      | some (h2, rest1, f2) => some (h2, a1 :: rest1, f2)

/-- Deep copy of an object's field list, parameterized by the copy of one
node. -/
def deepCopyFieldsF (rec : Heap → Nat → Nat → Option (Heap × Nat × Nat)) :
    Heap → List (String × Nat) → Nat → Option (Heap × List (String × Nat) × Nat)
  | h, [], fresh => some (h, [], fresh)
  | h, (k, a) :: rest, fresh =>
    match rec h a fresh with
    | none => none
    | some (h1, a1, f1) =>
      match deepCopyFieldsF rec h1 rest f1 with
      | none => none
      | some (h2, rest1, f2) => some (h2, (k, a1) :: rest1, f2)

/-- The `json.Marshal` + `json.Unmarshal` round trip of `NewDynamicTool`:
builds a structurally identical copy of the document at `a` entirely at
fresh addresses (at or above `fresh`), returning the new heap, the copy's
root address and the next free address. -/
def deepCopy : Nat → Heap → Nat → Nat → Option (Heap × Nat × Nat)
  | 0 => fun _ _ _ => none
  | fuel + 1 => fun h a fresh =>
    match h a with
    | none => none
    | some (.scalar s) => some (heapWrite h fresh (.scalar s), fresh, fresh + 1)
    | some (.arr items) =>
      match deepCopyListF (deepCopy fuel) h items fresh with
      | none => none
      | some (h1, addrs, f1) => some (heapWrite h1 f1 (.arr addrs), f1, f1 + 1)
    | some (.obj fields) =>
      match deepCopyFieldsF (deepCopy fuel) h fields fresh with
      | none => none
      | some (h1, fs1, f1) => some (heapWrite h1 f1 (.obj fs1), f1, f1 + 1)

/-- Allocate scalar string nodes for the `required` array's members. -/
def allocScalars (h : Heap) (fresh : Nat) : List String → Heap × List Nat × Nat
  | [] => (h, [], fresh)
  | s :: rest =>
    let h1 := heapWrite h fresh (.scalar s)
    let r := allocScalars h1 (fresh + 1) rest
    (r.1, fresh :: r.2.1, r.2.2)

/-- The `applyStrictMode` visit on one map node: when the node has a
`properties` key it sets `additionalProperties` to `false`, and when the
`properties` value is itself a map with a nonempty key set it stores the
sorted key list under `required`. -/
def strictVisit (h : Heap) (fresh a : Nat) : Heap × Nat :=
  match h a with
  | some (.obj fs) =>
    match fieldsGet fs "properties" with
    | none => (h, fresh)
    | some pAddr =>
      let h1 := heapWrite h fresh (.scalar "false")
      let fs1 := fieldsSet fs "additionalProperties" fresh
      let h2 := heapWrite h1 a (.obj fs1)
      let f1 := fresh + 1
      match h2 pAddr with
      | some (.obj props) =>
        let keys := sortStrings (props.map Prod.fst)
        match keys with
        | [] => (h2, f1)
        | _ =>
          let r := allocScalars h2 f1 keys
          let h3 := heapWrite r.1 r.2.2 (.arr r.2.1)
          let fs2 := fieldsSet fs1 "required" r.2.2
          let h4 := heapWrite h3 a (.obj fs2)
          (h4, r.2.2 + 1)
      | _ => (h2, f1)
  | _ => (h, fresh)

/-- The `stripSchemaIDs` visit on one map node: delete `id` and `$id`. -/
def stripVisit (h : Heap) (a : Nat) : Heap :=
  match h a with
  | some (.obj fs) => heapWrite h a (.obj (fieldsDel (fieldsDel fs "id") "$id"))
  | _ => h

/-- Walk the items of an array value, recursing only into maps;
parameterized by the walk of one map node. -/
def strictWalkItemsF (walk : Heap → Nat → Nat → Heap × Nat) :
    Heap → Nat → List Nat → Heap × Nat
  | h, fresh, [] => (h, fresh)
  | h, fresh, a :: rest =>
    match h a with
    | some (.obj _) =>
      let r := walk h fresh a
      strictWalkItemsF walk r.1 r.2 rest
    | _ => strictWalkItemsF walk h fresh rest

/-- Walk the values of a map node: recurse into map values and into map
items of array values. -/
def strictWalkValsF (walk : Heap → Nat → Nat → Heap × Nat)
    (walkItems : Heap → Nat → List Nat → Heap × Nat) :
    Heap → Nat → List Nat → Heap × Nat
  | h, fresh, [] => (h, fresh)
  | h, fresh, a :: rest =>
    match h a with
    | some (.obj _) =>
      let r := walk h fresh a
      strictWalkValsF walk walkItems r.1 r.2 rest
    | some (.arr items) =>
      let r := walkItems h fresh items
      strictWalkValsF walk walkItems r.1 r.2 rest
    | _ => strictWalkValsF walk walkItems h fresh rest

/-- `walkSchema` specialised to the strict-mode visit: visit the map node,
then recurse into its map values and into map items of its array values. -/
def strictWalk : Nat → Heap → Nat → Nat → Heap × Nat
  | 0 => fun h fresh _ => (h, fresh)
  | fuel + 1 => fun h fresh a =>
    let r := strictVisit h fresh a
    match r.1 a with
    | some (.obj fs) =>
      strictWalkValsF (strictWalk fuel) (strictWalkItemsF (strictWalk fuel))
        r.1 r.2 (fs.map Prod.snd)
    | _ => r

/-- Walk the items of an array value, recursing only into maps;
parameterized by the walk of one map node. -/
def stripWalkItemsF (walk : Heap → Nat → Heap) : Heap → List Nat → Heap
  | h, [] => h
  | h, a :: rest =>
    match h a with
    | some (.obj _) => stripWalkItemsF walk (walk h a) rest
    | _ => stripWalkItemsF walk h rest

/-- Walk the values of a map node: recurse into map values and into map
items of array values. -/
def stripWalkValsF (walk : Heap → Nat → Heap) (walkItems : Heap → List Nat → Heap) :
    Heap → List Nat → Heap
  | h, [] => h
  | h, a :: rest =>
    match h a with
    | some (.obj _) => stripWalkValsF walk walkItems (walk h a) rest
    | some (.arr items) => stripWalkValsF walk walkItems (walkItems h items) rest
    | _ => stripWalkValsF walk walkItems h rest

/-- `walkSchema` specialised to the identifier-stripping visit. -/
def stripWalk : Nat → Heap → Nat → Heap
  | 0 => fun h _ => h
  | fuel + 1 => fun h a =>
    let h1 := stripVisit h a
    match h1 a with
    | some (.obj fs) =>
      stripWalkValsF (stripWalk fuel) (stripWalkItemsF (stripWalk fuel)) h1 (fs.map Prod.snd)
    | _ => h1

/-- A JSON document read out of the heap as a pure tree. -/
inductive JTree where
  | scalar (lit : String)
  | arr (items : List JTree)
  | obj (fields : List (String × JTree))
  deriving Repr

/-- Read a list of array items, parameterized by the read of one node. -/
def readTreeListF (rec : Heap → Nat → Option JTree) : Heap → List Nat → Option (List JTree)
  | _, [] => some []
  | h, a :: rest =>
    match rec h a, readTreeListF rec h rest with
    | some t, some ts => some (t :: ts)
    | _, _ => none

/-- Read an object's field list, parameterized by the read of one node. -/
def readTreeFieldsF (rec : Heap → Nat → Option JTree) :
    Heap → List (String × Nat) → Option (List (String × JTree))
  | _, [] => some []
  | h, (k, a) :: rest =>
    match rec h a, readTreeFieldsF rec h rest with
    | some t, some ts => some ((k, t) :: ts)
    | _, _ => none

/-- Read the document rooted at an address as a pure tree. -/
def readTree : Nat → Heap → Nat → Option JTree
  | 0 => fun _ _ => none
  | fuel + 1 => fun h a =>
    match h a with
    | none => none
    | some (.scalar s) => some (.scalar s)
    | some (.arr items) => (readTreeListF (readTree fuel) h items).map .arr
    | some (.obj fs) => (readTreeFieldsF (readTree fuel) h fs).map .obj

/-- `NewDynamicTool`'s schema construction: deep-copy the caller's map,
apply strict mode to the copy when requested, strip identifiers from the
copy, and keep the copy as the tool's schema. Returns the final heap, the
tool schema's root address and the next free address. -/
def newDynamicToolSchema (fuel : Nat) (h : Heap) (root fresh : Nat) (strict : Bool) :
    Option (Heap × Nat × Nat) :=
  match deepCopy fuel h root fresh with
  | none => none
  | some (h1, copyRoot, f1) =>
    let r := if strict then strictWalk fuel h1 f1 copyRoot else (h1, f1)
    let h3 := stripWalk fuel r.1 copyRoot
    some (h3, copyRoot, r.2)

/-- A small caller-owned schema document for concrete instantiations:
an object with a `properties` map and a `$id` entry, occupying addresses
0, 1 and 2 of the heap. -/
def exampleHeap : Heap := fun a =>
  if a = 0 then some (.obj [("properties", 1), ("$id", 2)])
  else if a = 1 then some (.obj [("x", 2)])
  else if a = 2 then some (.scalar "int")
  else none

/-! ## Theorems -/

/-- C10: a Registry constructed with no options uses a default per-call
timeout of 5 seconds (5000000000 nanoseconds), an admission bound of 10
concurrent executions realised as a bounded semaphore, and panic recovery
enabled. (These values are fixed by `NewRegistry`; the spec's
configuration surface does not state them.) -/
theorem C10_default_registry_options :
    (newRegistryOptions []).timeout = 5000000000 ∧
    (newRegistryOptions []).maxConcurrency = 10 ∧
    (newRegistryOptions []).recoverPanics = true ∧
    semaphoreBound (newRegistryOptions []) = some 10 := by
  refine ⟨rfl, rfl, rfl, ?_⟩
  simp [semaphoreBound, newRegistryOptions, defaultRegistryOptions]

/-- C2 counterexample: with a registry default of 5 and a decorator
timeout of 10 (both positive, decorator larger), the effective deadline is
10 — the decorator's value — and not the minimum 5 that the claim
requires. -/
theorem C2_min_counterexample :
    effectiveDeadline 5 10 = some 10 ∧ effectiveDeadline 5 10 ≠ some (min 5 10) := by
  constructor
  · rfl
  · intro hcontra
    simp [effectiveDeadline, timeoutToolMeta, registryDeadline, timeoutToolDeadline,
      withTimeoutDeadline] at hcontra

/-- C2 (amended): when the decorator timeout is positive, the effective
deadline applied to the call is the decorator's timeout — the decorator
exposes it through the metadata facet, so it overrides the registry-wide
default instead of being combined with it; the effective deadline
coincides with the minimum of the two only when the decorator timeout is
at most the registry default. -/
theorem C2_decorator_timeout_overrides_default :
    ∀ (regDefault d : Int), 0 < d →
      effectiveDeadline regDefault d = some d ∧
      (d ≤ regDefault → effectiveDeadline regDefault d = some (min regDefault d)) := by
  intro r d hd
  have hmain : effectiveDeadline r d = some d := by
    simp [effectiveDeadline, timeoutToolMeta, registryDeadline, timeoutToolDeadline,
      withTimeoutDeadline, hd, not_le.mpr hd]
  exact ⟨hmain, fun hle => by rw [hmain, min_eq_right hle]⟩

/-- Witness for C2: instantiation at registry default 5, decorator 10
(effective deadline 10), and at registry default 10, decorator 3 (the
minimum form holds there). -/
theorem C2_decorator_timeout_overrides_default_witness :
    effectiveDeadline 5 10 = some 10 ∧ effectiveDeadline 10 3 = some (min 10 3) :=
  ⟨(C2_decorator_timeout_overrides_default 5 10 (by norm_num)).1,
   (C2_decorator_timeout_overrides_default 10 3 (by norm_num)).2 (by norm_num)⟩

/-- C7: over every combination of parser, validator and reflection
outcomes, `ParseAndValidate` invokes the business-rule `Validate` method
at most once, and in the pointer-receiver case (the shape implements
`Validatable` only through `&args`) it is invoked exactly once. -/
theorem C7_validate_runs_at_most_once :
    ∀ inp : ParseInput,
      (parseAndValidate inp).2 ≤ 1 ∧ (runLayer2Validation inp).2 ≤ 1 ∧
      (inp.parseErr = none → inp.schemaErr = none → inp.decodeErr = none →
       inp.valueImplements = false → inp.typeIsPointer = false →
       inp.ptrImplements = true → (parseAndValidate inp).2 = 1) := by
  rintro ⟨pe, se, de, vi, pi, tp, vr⟩
  cases pe <;> cases se <;> cases de <;> cases vi <;> cases pi <;> cases tp <;> cases vr <;>
    simp [parseAndValidate, runLayer2Validation, validateCustomRuns] <;>
    split <;> simp

/-- Witness for C7: a shape whose `Validate` is reachable only through the
pointer receiver runs it exactly once. -/
theorem C7_validate_runs_at_most_once_witness :
    (parseAndValidate (ParseInput.mk none none none false true false (some (.raw "bad")))).2 = 1 :=
  (C7_validate_runs_at_most_once _).2.2 rfl rfl rfl rfl rfl rfl

/-- C5: the error classification of the execution pipeline. A JSON parse
failure and a structural-schema violation yield Client-Class errors; a
business-rule failure that is not already Client-Class is wrapped into a
Client-Class error carrying the validation sentinel; a business-rule
failure that already is Client-Class passes through unchanged; a handler
error that is Client-Class passes through `wrapHandlerError` unchanged and
any other handler error becomes System-Class. -/
theorem C5_error_classification :
    (∀ inp m, inp.parseErr = some m →
       (parseAndValidate inp).1 = some (wrapJSONParseError m) ∧
       isClientError (wrapJSONParseError m) = true) ∧
    (∀ inp m, inp.parseErr = none → inp.schemaErr = some m →
       (parseAndValidate inp).1 = some (schemaViolationError m) ∧
       isClientError (schemaViolationError m) = true) ∧
    (∀ inp e, inp.parseErr = none → inp.schemaErr = none → inp.decodeErr = none →
       (runLayer2Validation inp).1 = some e → isClientError e = false →
       (parseAndValidate inp).1 = some (.clientErrorWrap e.message false .validation) ∧
       isClientError (GoErr.clientErrorWrap e.message false .validation) = true ∧
       errorsIs (GoErr.clientErrorWrap e.message false .validation) .validation = true) ∧
    (∀ inp e, inp.parseErr = none → inp.schemaErr = none → inp.decodeErr = none →
       (runLayer2Validation inp).1 = some e → isClientError e = true →
       (parseAndValidate inp).1 = some e) ∧
    (∀ e, isClientError e = true → wrapHandlerError e = e) ∧
    (∀ e, isClientError e = false →
       wrapHandlerError e = .systemError e ∧ isSystemError (wrapHandlerError e) = true) := by
  refine ⟨?_, ?_, ?_, ?_, ?_, ?_⟩
  · intro inp m hm
    exact ⟨by simp [parseAndValidate, hm], rfl⟩
  · intro inp m hpe hm
    exact ⟨by simp [parseAndValidate, hpe, hm], rfl⟩
  · intro inp e hpe hse hde hrl hce
    refine ⟨by simp [parseAndValidate, hpe, hse, hde, hrl, hce], rfl, ?_⟩
    simp [errorsIs]
  · intro inp e hpe hse hde hrl hce
    simp [parseAndValidate, hpe, hse, hde, hrl, hce]
  · intro e he
    simp [wrapHandlerError, he]
  · intro e he
    refine ⟨by simp [wrapHandlerError, he], ?_⟩
    simp [wrapHandlerError, he, isSystemError]

/-- Witness for C5: a parse failure is Client-Class, a foreign handler
error becomes System-Class. -/
theorem C5_error_classification_witness :
    (parseAndValidate (ParseInput.mk (some "bad json") none none false false false none)).1 =
        some (wrapJSONParseError "bad json") ∧
    wrapHandlerError (.raw "db down") = .systemError (.raw "db down") :=
  ⟨(C5_error_classification.1 _ "bad json" rfl).1,
   (C5_error_classification.2.2.2.2.2 (.raw "db down") rfl).1⟩

/-- C9: a call that `Execute` rejects before admission completes — the
registry is draining, the target name is unknown, or the admission slot
could not be acquired before the context ended — fires neither the
before-execution nor the after-execution hook, never touches the caller's
sink, and leaves the stream instrumentation empty. -/
theorem C9_rejected_calls_skip_hooks :
    ∀ (cfg : ExecConfig) (callID toolName : String) (tool : ToolBeh) (sink : Nat → SinkBeh),
      (cfg.draining = true ∨ cfg.registered = false ∨ cfg.semOutcome ≠ .acquired) →
      (registryExecute cfg callID toolName tool sink).onBeforeCalls = 0 ∧
      (registryExecute cfg callID toolName tool sink).onAfterCalls = 0 ∧
      (registryExecute cfg callID toolName tool sink).afterSummary = none ∧
      (registryExecute cfg callID toolName tool sink).stats = {} := by
  rintro ⟨dr, reg, sem, rec, hb, ha, hc⟩ callID toolName tool sink hrej
  cases dr <;> cases reg <;> cases sem <;> simp_all [registryExecute]

/-- Witness for C9: a call arriving while the registry drains fires no
hook and never reaches the sink. -/
theorem C9_rejected_calls_skip_hooks_witness :
    (registryExecute { draining := true } "c" "t" (.done none) (fun _ => .accept)).onAfterCalls = 0 ∧
    (registryExecute { draining := true } "c" "t" (.done none) (fun _ => .accept)).stats = {} :=
  ⟨(C9_rejected_calls_skip_hooks _ "c" "t" _ _ (Or.inl rfl)).2.1,
   (C9_rejected_calls_skip_hooks _ "c" "t" _ _ (Or.inl rfl)).2.2.2⟩

/-- C3: with panic recovery enabled, a panic unwinding out of the tool
body — whether raised by the handler function or by the caller's sink —
never escapes `Execute`: the result is a System-Class error wrapping the
panic value, and the after-execution hook fires exactly once with a
summary whose error field is that same System-Class error. -/
theorem C3_panic_becomes_system_error :
    ∀ (cfg : ExecConfig) (callID toolName : String) (tool : ToolBeh)
      (sink : Nat → SinkBeh) (m : String),
      cfg.draining = false → cfg.registered = true → cfg.semOutcome = .acquired →
      cfg.recoverPanics = true → cfg.hasOnAfter = true →
      (runBody callID toolName cfg.hasOnChunk sink tool {}).1 = .panicked m →
      (registryExecute cfg callID toolName tool sink).result =
          .ret (some (.systemError (.panicErrorV m))) ∧
      isSystemError (.systemError (.panicErrorV m)) = true ∧
      (registryExecute cfg callID toolName tool sink).onAfterCalls = 1 ∧
      (registryExecute cfg callID toolName tool sink).afterSummary =
        some { callID := callID, toolName := toolName,
               error := some (.systemError (.panicErrorV m)),
               chunksDelivered := (runBody callID toolName cfg.hasOnChunk sink tool {}).2.delivered,
               totalBytes := (runBody callID toolName cfg.hasOnChunk sink tool {}).2.bytes } := by
  intro cfg callID toolName tool sink m hd hr hs hrec hafter hbody
  refine ⟨?_, rfl, ?_, ?_⟩ <;>
    simp [registryExecute, hd, hr, hs, hrec, hafter, hbody]

/-- Witness for C3: a handler that panics with value `oops` surfaces as a
System-Class error (and, via the sink path, a sink panic behaves the same
way by the same theorem at a crashing sink). -/
theorem C3_panic_becomes_system_error_witness :
    (registryExecute {} "c1" "t" (.panicked "oops") (fun _ => .accept)).result =
        .ret (some (.systemError (.panicErrorV "oops"))) ∧
    (registryExecute {} "c1" "t"
        (.emit {} (.done none) (fun _ => .done none)) (fun _ => .crash "sink panic")).result =
        .ret (some (.systemError (.panicErrorV "sink panic"))) :=
  ⟨(C3_panic_becomes_system_error {} "c1" "t" (.panicked "oops") (fun _ => .accept)
      "oops" rfl rfl rfl rfl rfl rfl).1,
   (C3_panic_becomes_system_error {} "c1" "t"
      (.emit {} (.done none) (fun _ => .done none)) (fun _ => .crash "sink panic")
      "sink panic" rfl rfl rfl rfl rfl rfl).1⟩

/-- C6: `Shutdown` is idempotent and drains. A call that finds the
draining flag already set returns success immediately without touching the
state; any shutdown call leaves the flag set; while the flag is set every
new call is rejected with the shutdown sentinel (both at the admission
model and through `Execute`); a first shutdown returns success exactly
when all in-flight calls finish before the supplied context ends — in
which case every admitted call has completed by the time it returns — and
otherwise returns the context's error. -/
theorem C6_shutdown_idempotent_and_drains :
    (∀ (s : DrainState) (k : Nat) (e : GoErr), s.draining = true →
        shutdownCall s k e = (s, none)) ∧
    (∀ (s : DrainState) (k : Nat) (e : GoErr), ((shutdownCall s k e).1).draining = true) ∧
    (∀ (s : DrainState) (reg : Bool), s.draining = true →
        admitCall s reg = (s, some .shutdown)) ∧
    (∀ (cfg : ExecConfig) (callID toolName : String) (tool : ToolBeh) (sink : Nat → SinkBeh),
        cfg.draining = true →
        (registryExecute cfg callID toolName tool sink).result = .ret (some .shutdown)) ∧
    (∀ (s : DrainState) (k : Nat) (e : GoErr), s.draining = false →
        (((shutdownCall s k e).2 = none) ↔ s.inFlight ≤ k)) ∧
    (∀ (s : DrainState) (k : Nat) (e : GoErr), s.draining = false → s.inFlight ≤ k →
        (shutdownCall s k e).1 =
          DrainState.mk true 0 s.admittedCalls (s.finishedCalls + s.inFlight)) ∧
    (∀ (s : DrainState) (k : Nat) (e : GoErr), s.draining = false → k < s.inFlight →
        (shutdownCall s k e).2 = some e) := by
  refine ⟨?_, ?_, ?_, ?_, ?_, ?_, ?_⟩
  · intro s k e hdr
    simp [shutdownCall, hdr]
  · intro s k e
    by_cases hdr : s.draining = true
    · simp [shutdownCall, hdr]
    · simp only [Bool.not_eq_true] at hdr
      by_cases hle : s.inFlight ≤ k <;> simp [shutdownCall, hdr, hle]
  · intro s reg hdr
    simp [admitCall, hdr]
  · intro cfg callID toolName tool sink hdr
    simp [registryExecute, hdr]
  · intro s k e hdr
    by_cases hle : s.inFlight ≤ k <;> simp [shutdownCall, hdr, hle]
  · intro s k e hdr hle
    simp [shutdownCall, hdr, hle]
  · intro s k e hdr hlt
    simp [shutdownCall, hdr, Nat.not_le.mpr hlt]

/-- Witness for C6: a second shutdown is a no-op returning success; a
first shutdown over two in-flight calls that both finish in time returns
with the flag set, zero in flight and both calls finished. -/
theorem C6_shutdown_idempotent_and_drains_witness :
    shutdownCall (DrainState.mk true 0 4 4) 3 .ctxCanceled = (DrainState.mk true 0 4 4, none) ∧
    (shutdownCall (DrainState.mk false 2 2 0) 5 .ctxCanceled).1 = DrainState.mk true 0 2 2 :=
  ⟨C6_shutdown_idempotent_and_drains.1 _ 3 .ctxCanceled rfl,
   C6_shutdown_idempotent_and_drains.2.2.2.2.2.1 _ 5 .ctxCanceled rfl (by decide)⟩

/-! ### Stream accounting lemmas (for the sink-rejection summary) -/

theorem stampChunk_isError (a b : String) (c : Chunk) :
    (stampChunk a b c).isError = c.isError := rfl

theorem stampChunk_data (a b : String) (c : Chunk) :
    (stampChunk a b c).data = c.data := rfl

/-- The stream-abort wrapper satisfies the `errors.Is` identity check
against the stream-aborted sentinel through the wrapping. -/
theorem errorsIs_streamAbortWrap (e : GoErr) :
    errorsIs (GoErr.streamAbortWrap e) .streamAborted = true := by
  simp [errorsIs]

/-- The builder's result classification leaves a stream-abort wrapper
unchanged: it either is (or wraps) a Client-Class error and passes through,
or it satisfies the stream-aborted identity check and passes through. -/
theorem streamResultErr_abortWrap (e : GoErr) :
    streamResultErr (some (.streamAbortWrap e)) = some (.streamAbortWrap e) := by
  by_cases hc : isClientError (GoErr.streamAbortWrap e) = true
  · simp [streamResultErr, hc]
  · simp only [Bool.not_eq_true] at hc
    simp [streamResultErr, hc, errorsIs_streamAbortWrap]

/-- A `NewStreamTool` handler that emits no chunk returns nil. -/
theorem streamToolBeh_nil : newStreamToolBeh none (emitAllBeh []) = .done none := rfl

/-- Unfolding of the composed `NewStreamTool` behaviour at an emission:
the handler emits the chunk, continues on success, and on a yield error
stops with the error wrapped as the stream-abort condition (which then
passes through the builder's classification unchanged). -/
theorem streamToolBeh_cons (c : Chunk) (rest : List Chunk) :
    newStreamToolBeh none (emitAllBeh (c :: rest)) =
      .emit c (newStreamToolBeh none (emitAllBeh rest))
        (fun e => .done (some (.streamAbortWrap e))) := by
  simp only [newStreamToolBeh, emitAllBeh, wrapYieldBeh, mapDoneBeh]
  congr 1
  funext e
  simp only [wrapYieldBeh, mapDoneBeh, wrapYieldError]
  rw [streamResultErr_abortWrap]

/-- One `runBody` step where the sink accepts a non-error chunk. -/
theorem runBody_emit_accept (callID toolName : String) (hc : Bool) (s : Nat → SinkBeh)
    (c : Chunk) (onOk : ToolBeh) (onErr : GoErr → ToolBeh) (st : StreamStats)
    (hs : s st.sinkCalls = .accept)
    (he : (stampChunk callID toolName c).isError = false) :
    runBody callID toolName hc s (.emit c onOk onErr) st =
      runBody callID toolName hc s onOk
        { st with
          sinkCalls := st.sinkCalls + 1,
          sent := st.sent ++ [stampChunk callID toolName c],
          delivered := st.delivered + 1,
          bytes := st.bytes + (stampChunk callID toolName c).data.length,
          onChunkCalls := st.onChunkCalls + (if hc then 1 else 0) } := by
  simp only [runBody, hs, he]
  rfl

/-- One `runBody` step where the sink rejects the chunk. -/
theorem runBody_emit_reject (callID toolName : String) (hc : Bool) (s : Nat → SinkBeh)
    (c : Chunk) (onOk : ToolBeh) (onErr : GoErr → ToolBeh) (st : StreamStats) (e : GoErr)
    (hs : s st.sinkCalls = .reject e) :
    runBody callID toolName hc s (.emit c onOk onErr) st =
      runBody callID toolName hc s (onErr e)
        { st with
          sinkCalls := st.sinkCalls + 1,
          sent := st.sent ++ [stampChunk callID toolName c] } := by
  simp only [runBody, hs]

/-- Running a `NewStreamTool` handler against a sink that accepts the
first `k` chunks and rejects the next: the body finishes with the
stream-abort error, exactly `k` chunks counted as delivered with their
byte total, and `k + 1` chunks handed to the sink. -/
theorem runBody_streamTool_reject (callID toolName : String) (hc : Bool)
    (s : Nat → SinkBeh) (e0 : GoErr) :
    ∀ (k : Nat) (cs : List Chunk) (st : StreamStats),
      k < cs.length → (∀ c ∈ cs, c.isError = false) →
      (∀ i, i < k → s (st.sinkCalls + i) = .accept) →
      s (st.sinkCalls + k) = .reject e0 →
      runBody callID toolName hc s (newStreamToolBeh none (emitAllBeh cs)) st =
        (.norm (some (.streamAbortWrap e0)),
         { delivered := st.delivered + k,
           bytes := st.bytes + chunkBytes (cs.take k),
           sinkCalls := st.sinkCalls + k + 1,
           onChunkCalls := st.onChunkCalls + (if hc then k else 0),
           sent := st.sent ++ (cs.take (k + 1)).map (stampChunk callID toolName) }) := by
  intro k
  induction k with
  | zero =>
    intro cs st hlen hne hacc hrej
    match cs with
    | [] => simp at hlen
    | c :: rest =>
      rw [streamToolBeh_cons,
        runBody_emit_reject callID toolName hc s c _ _ st e0 (by simpa using hrej)]
      simp only [runBody]
      have : (stampChunk callID toolName c).isError = c.isError := rfl
      refine congrArg _ ?_
      simp [chunkBytes]
  | succ k ih =>
    intro cs st hlen hne hacc hrej
    match cs with
    | [] => simp at hlen
    | c :: rest =>
      have hcE : (stampChunk callID toolName c).isError = false := by
        rw [stampChunk_isError]
        exact hne c (List.mem_cons_self c rest)
      rw [streamToolBeh_cons,
        runBody_emit_accept callID toolName hc s c _ _ st
          (by simpa using hacc 0 (Nat.succ_pos k)) hcE]
      rw [ih rest _ (by simpa using Nat.lt_of_succ_lt_succ (by simpa using hlen))
        (fun c2 hm => hne c2 (List.mem_cons_of_mem c hm))
        (fun i hi => by
          have := hacc (i + 1) (Nat.succ_lt_succ hi)
          simpa [Nat.add_assoc, Nat.add_comm 1 i] using this)
        (by
          have := hrej
          simpa [Nat.add_assoc, Nat.add_comm 1 k] using this)]
      refine congrArg _ ?_
      have hd : (stampChunk callID toolName c).data = c.data := rfl
      cases hc <;>
        simp [chunkBytes, hd, Nat.add_assoc, Nat.add_comm, Nat.add_left_comm]

/-- C4: when the caller's sink accepts the first `N - 1` fragments of a
streaming execution and rejects the `N`-th, the summary handed to the
after-execution hook reports exactly `N - 1` delivered fragments and their
total byte size (the rejected fragment is not counted), and the error
returned by `Execute` satisfies the `errors.Is` identity check against the
stream-aborted sentinel. -/
theorem C4_sink_rejection_summary :
    ∀ (cfg : ExecConfig) (callID toolName : String) (cs : List Chunk) (e0 : GoErr) (N : Nat),
      cfg.draining = false → cfg.registered = true → cfg.semOutcome = .acquired →
      cfg.hasOnAfter = true →
      1 ≤ N → N ≤ cs.length → (∀ c ∈ cs, c.isError = false) →
      (registryExecute cfg callID toolName (newStreamToolBeh none (emitAllBeh cs))
          (rejectAfter (N - 1) e0)).result = .ret (some (.streamAbortWrap e0)) ∧
      errorsIs (GoErr.streamAbortWrap e0) .streamAborted = true ∧
      (registryExecute cfg callID toolName (newStreamToolBeh none (emitAllBeh cs))
          (rejectAfter (N - 1) e0)).onAfterCalls = 1 ∧
      (registryExecute cfg callID toolName (newStreamToolBeh none (emitAllBeh cs))
          (rejectAfter (N - 1) e0)).afterSummary =
        some { callID := callID, toolName := toolName,
               error := some (.streamAbortWrap e0),
               chunksDelivered := N - 1,
               totalBytes := chunkBytes (cs.take (N - 1)) } := by
  intro cfg callID toolName cs e0 N hd hr hs hafter hN hlen hne
  have hbody := runBody_streamTool_reject callID toolName cfg.hasOnChunk
    (rejectAfter (N - 1) e0) e0 (N - 1) cs {} (by omega) hne
    (fun i hi => by simp [rejectAfter, hi])
    (by simp [rejectAfter])
  refine ⟨?_, errorsIs_streamAbortWrap e0, ?_, ?_⟩ <;>
    simp [registryExecute, hd, hr, hs, hafter, hbody]

/-- Witness for C4: three two-byte/three-byte/one-byte fragments, sink
accepts the first and rejects the second: one delivered fragment, two
bytes, stream-aborted error. -/
theorem C4_sink_rejection_summary_witness :
    (registryExecute {} "c1" "t"
        (newStreamToolBeh none (emitAllBeh
          [{ data := "aa" }, { data := "bbb" }, { data := "c" }]))
        (rejectAfter 1 (.raw "closed"))).afterSummary =
      some { callID := "c1", toolName := "t",
             error := some (.streamAbortWrap (.raw "closed")),
             chunksDelivered := 1, totalBytes := 2 } := by
  have h := C4_sink_rejection_summary {} "c1" "t"
    [{ data := "aa" }, { data := "bbb" }, { data := "c" }] (.raw "closed") 2
    rfl rfl rfl rfl (by norm_num) (by simp) (by decide)
  exact h.2.2.2.trans (by decide)

/-! ### Batch streaming lemmas -/

theorem mapOpt_append {α β : Type} (f : α → Option β) :
    ∀ (l r : List α) (cl cr : List β),
      mapOpt f l = some cl → mapOpt f r = some cr →
      mapOpt f (l ++ r) = some (cl ++ cr) := by
  intro l
  induction l with
  | nil =>
    intro r cl cr hl hr
    simp only [mapOpt] at hl
    cases hl
    simpa using hr
  | cons a rest ih =>
    intro r cl cr hl hr
    rw [List.cons_append]
    simp only [mapOpt] at hl ⊢
    cases hfa : f a with
    | none => rw [hfa] at hl; simp at hl
    | some b =>
      cases hrest : mapOpt f rest with
      | none => rw [hfa, hrest] at hl; simp at hl
      | some bs =>
        rw [hfa, hrest] at hl
        simp only [Option.some.injEq] at hl
        rw [ih r bs cr hrest hr]
        simp [← hl]

/-- `ExecuteBatchStream` on a nonempty batch: run every call, flatten the
serialized deliveries, return the context error. -/
theorem executeBatchStream_ne_nil (cfg : ExecConfig) (ctxErr : Option GoErr)
    (items : List BatchItem) (h : items ≠ []) :
    executeBatchStream cfg ctxErr items =
      (mapOpt (runBatchItem cfg) items).map fun outs => (outs.flatten, ctxErr) := by
  cases items with
  | nil => exact absurd rfl h
  | cons a rest => rfl

/-- C1: `ExecuteBatchStream` implements partial success. Splitting a batch
around any one call `bad`, the batch output is exactly the concatenation
of what each call produces on its own — a sibling's fragments are never
suppressed by `bad`'s failure, and each per-call `Execute` error is
delivered to the sink as an error-flagged fragment appended after that
call's own deliveries; the method's return value ignores per-call errors
and is the context's error exactly when the caller's context ended (and
nil for an empty batch). -/
theorem C1_batch_partial_success :
    (∀ (cfg : ExecConfig) (ctxErr : Option GoErr) (l r : List BatchItem) (bad : BatchItem)
        (cl cr : List (List Chunk)) (cb : List Chunk),
        mapOpt (runBatchItem cfg) l = some cl →
        runBatchItem cfg bad = some cb →
        mapOpt (runBatchItem cfg) r = some cr →
        executeBatchStream cfg ctxErr (l ++ bad :: r) =
          some (cl.flatten ++ cb ++ cr.flatten, ctxErr)) ∧
    (∀ (cfg : ExecConfig) (item : BatchItem) (e : GoErr),
        (registryExecute { cfg with registered := item.registered } item.call.id
            item.call.toolName item.tool (fun _ => .accept)).result = .ret (some e) →
        runBatchItem cfg item =
          some ((registryExecute { cfg with registered := item.registered } item.call.id
              item.call.toolName item.tool (fun _ => .accept)).stats.sent.map
              (batchStamp item.call) ++ [errChunk item.call e]) ∧
        (errChunk item.call e).isError = true) ∧
    (∀ (cfg : ExecConfig) (ctxErr : Option GoErr) (items : List BatchItem)
        (chunks : List Chunk) (res : Option GoErr),
        executeBatchStream cfg ctxErr items = some (chunks, res) →
        res = ctxErr ∨ (items = [] ∧ res = none)) := by
  refine ⟨?_, ?_, ?_⟩
  · intro cfg ctxErr l r bad cl cr cb hl hb hr
    rw [executeBatchStream_ne_nil cfg ctxErr _ (by simp)]
    have hmid : mapOpt (runBatchItem cfg) (bad :: r) = some (cb :: cr) := by
      simp only [mapOpt, hb, hr]
    rw [mapOpt_append (runBatchItem cfg) l (bad :: r) cl (cb :: cr) hl hmid]
    simp [List.append_assoc]
  · intro cfg item e h
    refine ⟨?_, rfl⟩
    unfold runBatchItem
    simp only [h]
  · intro cfg ctxErr items chunks res h
    cases items with
    | nil =>
      have h2 : some (([] : List Chunk), (none : Option GoErr)) = some (chunks, res) := h
      simp only [Option.some.injEq, Prod.mk.injEq] at h2
      exact Or.inr ⟨rfl, h2.2.symm⟩
    | cons a rest =>
      rw [executeBatchStream_ne_nil cfg ctxErr _ (by simp)] at h
      cases hm : mapOpt (runBatchItem cfg) (a :: rest) with
      | none => rw [hm] at h; simp at h
      | some outs =>
        rw [hm] at h
        have h2 : some (outs.flatten, ctxErr) = some (chunks, res) := h
        simp only [Option.some.injEq, Prod.mk.injEq] at h2
        exact Or.inl h2.2.symm

/-- Witness for C1: the spec's concrete scenario — a batch of three calls
whose middle call targets an unregistered name still delivers both
siblings' fragments, reports the failure as an error-flagged fragment, and
the batch call itself returns nil. -/
theorem C1_batch_partial_success_witness :
    executeBatchStream {} none
        ([BatchItem.mk ⟨"1", "double"⟩ true
            (newStreamToolBeh none (emitAllBeh [{ event := "result", data := "x2" }]))] ++
          BatchItem.mk ⟨"2", "missing"⟩ false (.done none) ::
          [BatchItem.mk ⟨"3", "double"⟩ true
            (newStreamToolBeh none (emitAllBeh [{ event := "result", data := "x6" }]))]) =
      some ([{ callID := "1", toolName := "double", event := "result", data := "x2" },
             { callID := "2", toolName := "missing", event := "result",
               data := "tool not found", isError := true },
             { callID := "3", toolName := "double", event := "result", data := "x6" }], none) := by
  have h := C1_batch_partial_success.1 {} none
      [BatchItem.mk ⟨"1", "double"⟩ true
        (newStreamToolBeh none (emitAllBeh [{ event := "result", data := "x2" }]))]
      [BatchItem.mk ⟨"3", "double"⟩ true
        (newStreamToolBeh none (emitAllBeh [{ event := "result", data := "x6" }]))]
      (BatchItem.mk ⟨"2", "missing"⟩ false (.done none))
      [[{ callID := "1", toolName := "double", event := "result", data := "x2" }]]
      [[{ callID := "3", toolName := "double", event := "result", data := "x6" }]]
      [{ callID := "2", toolName := "missing", event := "result",
         data := "tool not found", isError := true }]
      rfl rfl rfl
  exact h.trans (by decide)

/-! ### Heap lemmas for the dynamic-tool schema construction -/

theorem heapWrite_same (h : Heap) (a : Nat) (n : JNode) : heapWrite h a n a = some n := by
  simp [heapWrite]

theorem heapWrite_ne (h : Heap) (a x : Nat) (n : JNode) (hx : x ≠ a) :
    heapWrite h a n x = h x := by
  simp [heapWrite, hx]

theorem fieldsSet_snd_subset (k : String) (v : Nat) :
    ∀ (fs : List (String × Nat)) (p : String × Nat), p ∈ fieldsSet fs k v →
      p.2 = v ∨ p.2 ∈ fs.map Prod.snd := by
  intro fs
  induction fs with
  | nil => intro p hp; simp [fieldsSet] at hp; simp [hp]
  | cons q rest ih =>
    intro p hp
    simp only [fieldsSet] at hp
    by_cases hk : q.1 = k
    · rw [if_pos hk] at hp
      rcases List.mem_cons.mp hp with h1 | h2
      · left; rw [h1]
      · right; simp only [List.map_cons, List.mem_cons]
        right; exact List.mem_map_of_mem Prod.snd h2
    · rw [if_neg hk] at hp
      rcases List.mem_cons.mp hp with h1 | h2
      · right; simp [h1]
      · rcases ih p h2 with h3 | h3
        · exact Or.inl h3
        · right; simp only [List.map_cons, List.mem_cons]; right; exact h3

theorem fieldsDel_subset (k : String) :
    ∀ (fs : List (String × Nat)) (p : String × Nat), p ∈ fieldsDel fs k → p ∈ fs := by
  intro fs
  induction fs with
  | nil => intro p hp; simp [fieldsDel] at hp
  | cons q rest ih =>
    intro p hp
    simp only [fieldsDel] at hp
    by_cases hk : q.1 = k
    · rw [if_pos hk] at hp
      exact List.mem_cons_of_mem q (ih p hp)
    · rw [if_neg hk] at hp
      rcases List.mem_cons.mp hp with h1 | h2
      · simp [h1]
      · exact List.mem_cons_of_mem q (ih p h2)

/-- Writing a node whose children all sit at or above the watermark, at an
address at or above the watermark, preserves closedness of the high
region. -/
theorem HighClosed.write {h : Heap} {n : Nat} (hcl : HighClosed h n)
    (a : Nat) (node : JNode) (hch : ∀ c ∈ nodeChildren node, n ≤ c) :
    HighClosed (heapWrite h a node) n := by
  intro b nb hnb hlook c hc
  by_cases hba : b = a
  · subst hba
    rw [heapWrite_same] at hlook
    cases hlook
    exact hch c hc
  · rw [heapWrite_ne h a b node hba] at hlook
    exact hcl b nb hnb hlook c hc

/-- Frame and range facts of the deep copy of array items, given the same
facts for the copy of one node: the heap below the allocation watermark is
untouched, every address handed back lies in the freshly allocated region,
and closedness of the high region is preserved. -/
theorem deepCopyListF_spec (rec : Heap → Nat → Nat → Option (Heap × Nat × Nat))
    (hrec : ∀ h a fresh h1 r f1, rec h a fresh = some (h1, r, f1) →
      (∀ x, x < fresh → h1 x = h x) ∧ (fresh ≤ r ∧ r < f1) ∧
      (∀ n, n ≤ fresh → HighClosed h n → HighClosed h1 n)) :
    ∀ (as : List Nat) (h : Heap) (fresh : Nat) (h1 : Heap) (rs : List Nat) (f1 : Nat),
      deepCopyListF rec h as fresh = some (h1, rs, f1) →
      (∀ x, x < fresh → h1 x = h x) ∧
      (fresh ≤ f1 ∧ ∀ rr ∈ rs, fresh ≤ rr ∧ rr < f1) ∧
      (∀ n, n ≤ fresh → HighClosed h n → HighClosed h1 n) := by
  intro as
  induction as with
  | nil =>
    intro h fresh h1 rs f1 hcp
    simp only [deepCopyListF, Option.some.injEq, Prod.mk.injEq] at hcp
    obtain ⟨hh, hr, hf⟩ := hcp
    subst hh hr hf
    exact ⟨fun x _ => rfl, ⟨le_refl _, by simp⟩, fun n _ hcl => hcl⟩
  | cons a rest ih =>
    intro h fresh h1 rs f1 hcp
    simp only [deepCopyListF] at hcp
    split at hcp
    · simp at hcp
    · rename_i hA a1 fA hc
      split at hcp
      · simp at hcp
      · rename_i hB rest1 fB hrest
        simp only [Option.some.injEq, Prod.mk.injEq] at hcp
        obtain ⟨hh, hr, hf⟩ := hcp
        subst hh hr hf
        obtain ⟨hlowA, ⟨ha1, hfa⟩, hclA⟩ := hrec h a fresh hA a1 fA hc
        obtain ⟨hlowB, ⟨hfb, hmemB⟩, hclB⟩ := ih hA fA hB rest1 fB hrest
        have hffa : fresh ≤ fA := le_trans ha1 (le_of_lt hfa)
        refine ⟨?_, ⟨le_trans hffa hfb, ?_⟩, ?_⟩
        · intro x hx
          rw [hlowB x (lt_of_lt_of_le hx hffa)]
          exact hlowA x hx
        · intro rr hrr
          rcases List.mem_cons.mp hrr with h1 | h2
          · subst h1
            exact ⟨ha1, lt_of_lt_of_le hfa hfb⟩
          · obtain ⟨hx1, hx2⟩ := hmemB rr h2
            exact ⟨le_trans hffa hx1, hx2⟩
        · intro n hn hcl
          exact hclB n (le_trans hn hffa) (hclA n hn hcl)

/-- The same facts for the deep copy of an object's field list. -/
theorem deepCopyFieldsF_spec (rec : Heap → Nat → Nat → Option (Heap × Nat × Nat))
    (hrec : ∀ h a fresh h1 r f1, rec h a fresh = some (h1, r, f1) →
      (∀ x, x < fresh → h1 x = h x) ∧ (fresh ≤ r ∧ r < f1) ∧
      (∀ n, n ≤ fresh → HighClosed h n → HighClosed h1 n)) :
    ∀ (fs : List (String × Nat)) (h : Heap) (fresh : Nat) (h1 : Heap)
      (fs1 : List (String × Nat)) (f1 : Nat),
      deepCopyFieldsF rec h fs fresh = some (h1, fs1, f1) →
      (∀ x, x < fresh → h1 x = h x) ∧
      (fresh ≤ f1 ∧ ∀ p ∈ fs1, fresh ≤ p.2 ∧ p.2 < f1) ∧
      (∀ n, n ≤ fresh → HighClosed h n → HighClosed h1 n) := by
  intro fs
  induction fs with
  | nil =>
    intro h fresh h1 fs1 f1 hcp
    simp only [deepCopyFieldsF, Option.some.injEq, Prod.mk.injEq] at hcp
    obtain ⟨hh, hr, hf⟩ := hcp
    subst hh hr hf
    exact ⟨fun x _ => rfl, ⟨le_refl _, by simp⟩, fun n _ hcl => hcl⟩
  | cons q rest ih =>
    obtain ⟨k, a⟩ := q
    intro h fresh h1 fs1 f1 hcp
    simp only [deepCopyFieldsF] at hcp
    split at hcp
    · simp at hcp
    · rename_i hA a1 fA hc
      split at hcp
      · simp at hcp
      · rename_i hB rest1 fB hrest
        simp only [Option.some.injEq, Prod.mk.injEq] at hcp
        obtain ⟨hh, hr, hf⟩ := hcp
        subst hh hr hf
        obtain ⟨hlowA, ⟨ha1, hfa⟩, hclA⟩ := hrec h a fresh hA a1 fA hc
        obtain ⟨hlowB, ⟨hfb, hmemB⟩, hclB⟩ := ih hA fA hB rest1 fB hrest
        have hffa : fresh ≤ fA := le_trans ha1 (le_of_lt hfa)
        refine ⟨?_, ⟨le_trans hffa hfb, ?_⟩, ?_⟩
        · intro x hx
          rw [hlowB x (lt_of_lt_of_le hx hffa)]
          exact hlowA x hx
        · intro p hp
          rcases List.mem_cons.mp hp with h1 | h2
          · subst h1
            exact ⟨ha1, lt_of_lt_of_le hfa hfb⟩
          · obtain ⟨hx1, hx2⟩ := hmemB p h2
            exact ⟨le_trans hffa hx1, hx2⟩
        · intro n hn hcl
          exact hclB n (le_trans hn hffa) (hclA n hn hcl)

/-- Frame and range facts of the deep copy: the heap below the allocation
watermark is untouched, the copy root lies in the freshly allocated
region, and closedness of the high region is preserved. -/
theorem deepCopy_spec : ∀ (fuel : Nat) (h : Heap) (a fresh : Nat) (h1 : Heap) (r f1 : Nat),
    deepCopy fuel h a fresh = some (h1, r, f1) →
    (∀ x, x < fresh → h1 x = h x) ∧ (fresh ≤ r ∧ r < f1) ∧
    (∀ n, n ≤ fresh → HighClosed h n → HighClosed h1 n) := by
  intro fuel
  induction fuel with
  | zero =>
    intro h a fresh h1 r f1 hcp
    simp [deepCopy] at hcp
  | succ fuel ih =>
    intro h a fresh h1 r f1 hcp
    simp only [deepCopy] at hcp
    split at hcp
    · simp at hcp
    · rename_i s heq
      simp only [Option.some.injEq, Prod.mk.injEq] at hcp
      obtain ⟨hh, hr, hf⟩ := hcp
      subst hh hr hf
      refine ⟨?_, ⟨le_refl _, Nat.lt_succ_self _⟩, ?_⟩
      · intro x hx
        exact heapWrite_ne h fresh x _ (by omega)
      · intro n hn hcl
        exact hcl.write fresh _ (by simp [nodeChildren])
    · rename_i items heq
      split at hcp
      · simp at hcp
      · rename_i hA addrs fA hl
        simp only [Option.some.injEq, Prod.mk.injEq] at hcp
        obtain ⟨hh, hr, hf⟩ := hcp
        subst hh hr hf
        obtain ⟨hlow, ⟨hfle, hmem⟩, hclp⟩ :=
          deepCopyListF_spec (deepCopy fuel) ih items h fresh hA addrs fA hl
        refine ⟨?_, ⟨hfle, Nat.lt_succ_self _⟩, ?_⟩
        · intro x hx
          rw [heapWrite_ne hA fA x _ (by omega)]
          exact hlow x hx
        · intro n hn hcl
          refine (hclp n hn hcl).write fA _ ?_
          intro c hc
          simp only [nodeChildren] at hc
          exact le_trans hn (hmem c hc).1
    · rename_i fields heq
      split at hcp
      · simp at hcp
      · rename_i hA fsA fA hl
        simp only [Option.some.injEq, Prod.mk.injEq] at hcp
        obtain ⟨hh, hr, hf⟩ := hcp
        subst hh hr hf
        obtain ⟨hlow, ⟨hfle, hmem⟩, hclp⟩ :=
          deepCopyFieldsF_spec (deepCopy fuel) ih fields h fresh hA fsA fA hl
        refine ⟨?_, ⟨hfle, Nat.lt_succ_self _⟩, ?_⟩
        · intro x hx
          rw [heapWrite_ne hA fA x _ (by omega)]
          exact hlow x hx
        · intro n hn hcl
          refine (hclp n hn hcl).write fA _ ?_
          intro c hc
          simp only [nodeChildren, List.mem_map] at hc
          obtain ⟨p, hp, hpc⟩ := hc
          subst hpc
          exact le_trans hn (hmem p hp).1

/-- Frame and range facts for the allocation of `required` member
scalars. -/
theorem allocScalars_spec : ∀ (ss : List String) (h : Heap) (fresh : Nat),
    (∀ x, x < fresh → (allocScalars h fresh ss).1 x = h x) ∧
    fresh ≤ (allocScalars h fresh ss).2.2 ∧
    (∀ a ∈ (allocScalars h fresh ss).2.1, fresh ≤ a ∧ a < (allocScalars h fresh ss).2.2) ∧
    (∀ n, n ≤ fresh → HighClosed h n → HighClosed (allocScalars h fresh ss).1 n) := by
  intro ss
  induction ss with
  | nil =>
    intro h fresh
    refine ⟨fun x hx => rfl, le_refl _, ?_, fun n hn hcl => hcl⟩
    intro a ha
    simp [allocScalars] at ha
  | cons s rest ih =>
    intro h fresh
    obtain ⟨ih1, ih2, ih3, ih4⟩ := ih (heapWrite h fresh (.scalar s)) (fresh + 1)
    refine ⟨?_, ?_, ?_, ?_⟩
    · intro x hx
      show (allocScalars (heapWrite h fresh (.scalar s)) (fresh + 1) rest).1 x = h x
      rw [ih1 x (by omega)]
      exact heapWrite_ne h fresh x _ (by omega)
    · exact le_trans (Nat.le_succ fresh) ih2
    · intro a ha
      have ha2 : a ∈ fresh :: (allocScalars (heapWrite h fresh (.scalar s)) (fresh + 1) rest).2.1 := ha
      rcases List.mem_cons.mp ha2 with h1 | h2
      · subst h1
        exact ⟨le_refl _, lt_of_lt_of_le (Nat.lt_succ_self _) ih2⟩
      · obtain ⟨g1, g2⟩ := ih3 a h2
        exact ⟨le_trans (Nat.le_succ fresh) g1, g2⟩
    · intro n hn hcl
      exact ih4 n (by omega) (hcl.write fresh _ (by simp [nodeChildren]))

/-- Frame, watermark and closedness facts for one strict-mode visit: the
writes hit only the visited node, the fresh region, and the allocation
counter never moves backwards; everything below the watermark is
untouched. -/
theorem strictVisit_spec (h : Heap) (fresh a n : Nat)
    (hn : n ≤ fresh) (hna : n ≤ a) (hcl : HighClosed h n) :
    (∀ x, x < n → (strictVisit h fresh a).1 x = h x) ∧
    fresh ≤ (strictVisit h fresh a).2 ∧
    HighClosed (strictVisit h fresh a).1 n := by
  simp only [strictVisit]
  split
  case _ fs heq =>
    split
    case _ => exact ⟨fun x hx => rfl, le_refl _, hcl⟩
    case _ pAddr hp =>
      have hchOld : ∀ c ∈ nodeChildren (JNode.obj fs), n ≤ c := hcl a _ hna heq
      have hcl1 : HighClosed (heapWrite h fresh (.scalar "false")) n :=
        hcl.write fresh _ (by simp [nodeChildren])
      have hch1 : ∀ c ∈ nodeChildren (JNode.obj (fieldsSet fs "additionalProperties" fresh)),
          n ≤ c := by
        intro c hc
        simp only [nodeChildren, List.mem_map] at hc
        obtain ⟨p, hpmem, hpc⟩ := hc
        subst hpc
        rcases fieldsSet_snd_subset "additionalProperties" fresh fs p hpmem with h1 | h1
        · omega
        · exact hchOld p.2 (by simpa [nodeChildren] using h1)
      have hcl2 : HighClosed
          (heapWrite (heapWrite h fresh (.scalar "false")) a
            (.obj (fieldsSet fs "additionalProperties" fresh))) n :=
        hcl1.write a _ hch1
      have hlow2 : ∀ x, x < n →
          heapWrite (heapWrite h fresh (.scalar "false")) a
            (.obj (fieldsSet fs "additionalProperties" fresh)) x = h x := by
        intro x hx
        rw [heapWrite_ne _ a x _ (by omega), heapWrite_ne h fresh x _ (by omega)]
      split
      case _ props hpp =>
        split
        case _ => exact ⟨hlow2, Nat.le_succ fresh, hcl2⟩
        case _ =>
          obtain ⟨a1, a2, a3, a4⟩ := allocScalars_spec
            (sortStrings (props.map Prod.fst))
            (heapWrite (heapWrite h fresh (.scalar "false")) a
              (.obj (fieldsSet fs "additionalProperties" fresh)))
            (fresh + 1)
          set RA := allocScalars
            (heapWrite (heapWrite h fresh (.scalar "false")) a
              (.obj (fieldsSet fs "additionalProperties" fresh)))
            (fresh + 1) (sortStrings (props.map Prod.fst)) with hRA
          have hcl3 : HighClosed (heapWrite RA.1 RA.2.2 (.arr RA.2.1)) n := by
            refine (a4 n (by omega) hcl2).write RA.2.2 _ ?_
            intro c hc
            simp only [nodeChildren] at hc
            have := (a3 c hc).1
            omega
          have hch2 : ∀ c ∈ nodeChildren
              (JNode.obj (fieldsSet (fieldsSet fs "additionalProperties" fresh)
                "required" RA.2.2)), n ≤ c := by
            intro c hc
            simp only [nodeChildren, List.mem_map] at hc
            obtain ⟨p, hpmem, hpc⟩ := hc
            subst hpc
            rcases fieldsSet_snd_subset "required" RA.2.2
                (fieldsSet fs "additionalProperties" fresh) p hpmem with h1 | h1
            · omega
            · obtain ⟨q, hq, hqe⟩ := List.mem_map.mp h1
              rw [← hqe]
              exact hch1 q.2 (List.mem_map_of_mem Prod.snd hq)
          refine ⟨?_, le_trans (le_trans (Nat.le_succ fresh) a2) (Nat.le_succ RA.2.2),
            hcl3.write a _ hch2⟩
          intro x hx
          show heapWrite (heapWrite RA.1 RA.2.2 (.arr RA.2.1)) a
            (.obj (fieldsSet (fieldsSet fs "additionalProperties" fresh) "required" RA.2.2))
            x = h x
          rw [heapWrite_ne _ a x _ (by omega),
            heapWrite_ne RA.1 RA.2.2 x _ (by omega),
            a1 x (by omega)]
          exact hlow2 x hx
      case _ => exact ⟨hlow2, Nat.le_succ fresh, hcl2⟩
  case _ => exact ⟨fun x hx => rfl, le_refl _, hcl⟩

/-- Frame, watermark and closedness facts for the item walk, given the
same facts for the walk of one map node. -/
theorem strictWalkItemsF_spec (walk : Heap → Nat → Nat → Heap × Nat)
    (hwalk : ∀ (h : Heap) (fresh a n : Nat), n ≤ fresh → n ≤ a → HighClosed h n →
      (∀ x, x < n → (walk h fresh a).1 x = h x) ∧ fresh ≤ (walk h fresh a).2 ∧
      HighClosed (walk h fresh a).1 n) :
    ∀ (as : List Nat) (h : Heap) (fresh n : Nat), n ≤ fresh → (∀ b ∈ as, n ≤ b) →
      HighClosed h n →
      (∀ x, x < n → (strictWalkItemsF walk h fresh as).1 x = h x) ∧
      fresh ≤ (strictWalkItemsF walk h fresh as).2 ∧
      HighClosed (strictWalkItemsF walk h fresh as).1 n := by
  intro as
  induction as with
  | nil =>
    intro h fresh n hn hb hcl
    exact ⟨fun x hx => rfl, le_refl _, hcl⟩
  | cons b rest ih =>
    intro h fresh n hn hb hcl
    have hbn : n ≤ b := hb b (List.mem_cons_self b rest)
    simp only [strictWalkItemsF]
    split
    case _ fs heq =>
      obtain ⟨m1, m2, m3⟩ := hwalk h fresh b n hn hbn hcl
      obtain ⟨g1, g2, g3⟩ := ih (walk h fresh b).1 (walk h fresh b).2 n (le_trans hn m2)
        (fun c hc => hb c (List.mem_cons_of_mem b hc)) m3
      exact ⟨fun x hx => (g1 x hx).trans (m1 x hx), le_trans m2 g2, g3⟩
    case _ =>
      exact ih h fresh n hn (fun c hc => hb c (List.mem_cons_of_mem b hc)) hcl

/-- Frame, watermark and closedness facts for the value walk, given the
same facts for the walk of one map node and for the item walk. -/
theorem strictWalkValsF_spec (walk : Heap → Nat → Nat → Heap × Nat)
    (walkItems : Heap → Nat → List Nat → Heap × Nat)
    (hwalk : ∀ (h : Heap) (fresh a n : Nat), n ≤ fresh → n ≤ a → HighClosed h n →
      (∀ x, x < n → (walk h fresh a).1 x = h x) ∧ fresh ≤ (walk h fresh a).2 ∧
      HighClosed (walk h fresh a).1 n)
    (hitems : ∀ (as : List Nat) (h : Heap) (fresh n : Nat), n ≤ fresh →
      (∀ b ∈ as, n ≤ b) → HighClosed h n →
      (∀ x, x < n → (walkItems h fresh as).1 x = h x) ∧ fresh ≤ (walkItems h fresh as).2 ∧
      HighClosed (walkItems h fresh as).1 n) :
    ∀ (as : List Nat) (h : Heap) (fresh n : Nat), n ≤ fresh → (∀ b ∈ as, n ≤ b) →
      HighClosed h n →
      (∀ x, x < n → (strictWalkValsF walk walkItems h fresh as).1 x = h x) ∧
      fresh ≤ (strictWalkValsF walk walkItems h fresh as).2 ∧
      HighClosed (strictWalkValsF walk walkItems h fresh as).1 n := by
  intro as
  induction as with
  | nil =>
    intro h fresh n hn hb hcl
    exact ⟨fun x hx => rfl, le_refl _, hcl⟩
  | cons b rest ih =>
    intro h fresh n hn hb hcl
    have hbn : n ≤ b := hb b (List.mem_cons_self b rest)
    simp only [strictWalkValsF]
    split
    case _ fs heq =>
      obtain ⟨m1, m2, m3⟩ := hwalk h fresh b n hn hbn hcl
      obtain ⟨g1, g2, g3⟩ := ih (walk h fresh b).1 (walk h fresh b).2 n (le_trans hn m2)
        (fun c hc => hb c (List.mem_cons_of_mem b hc)) m3
      exact ⟨fun x hx => (g1 x hx).trans (m1 x hx), le_trans m2 g2, g3⟩
    case _ items heq =>
      have hit : ∀ c ∈ items, n ≤ c := by
        intro c hc
        exact hcl b _ hbn heq c (by simpa [nodeChildren] using hc)
      obtain ⟨m1, m2, m3⟩ := hitems items h fresh n hn hit hcl
      obtain ⟨g1, g2, g3⟩ := ih (walkItems h fresh items).1 (walkItems h fresh items).2 n
        (le_trans hn m2) (fun c hc => hb c (List.mem_cons_of_mem b hc)) m3
      exact ⟨fun x hx => (g1 x hx).trans (m1 x hx), le_trans m2 g2, g3⟩
    case _ =>
      exact ih h fresh n hn (fun c hc => hb c (List.mem_cons_of_mem b hc)) hcl

/-- Frame, watermark and closedness facts for the whole strict-mode walk:
it never writes below the watermark and keeps the high region closed. -/
theorem strictWalk_spec : ∀ (fuel : Nat) (h : Heap) (fresh a n : Nat),
    n ≤ fresh → n ≤ a → HighClosed h n →
    (∀ x, x < n → (strictWalk fuel h fresh a).1 x = h x) ∧
    fresh ≤ (strictWalk fuel h fresh a).2 ∧
    HighClosed (strictWalk fuel h fresh a).1 n := by
  intro fuel
  induction fuel with
  | zero =>
    intro h fresh a n hn hna hcl
    exact ⟨fun x hx => rfl, le_refl _, hcl⟩
  | succ fuel ih =>
    intro h fresh a n hn hna hcl
    obtain ⟨v1, v2, v3⟩ := strictVisit_spec h fresh a n hn hna hcl
    simp only [strictWalk]
    split
    case _ fs heq =>
      have hch : ∀ b ∈ fs.map Prod.snd, n ≤ b := by
        intro b hb
        exact v3 a _ hna heq b (by simpa [nodeChildren] using hb)
      obtain ⟨g1, g2, g3⟩ := strictWalkValsF_spec (strictWalk fuel)
        (strictWalkItemsF (strictWalk fuel)) ih
        (fun as2 h2 fresh2 n2 => strictWalkItemsF_spec (strictWalk fuel) ih as2 h2 fresh2 n2)
        (fs.map Prod.snd) (strictVisit h fresh a).1 (strictVisit h fresh a).2 n
        (le_trans hn v2) hch v3
      exact ⟨fun x hx => (g1 x hx).trans (v1 x hx), le_trans v2 g2, g3⟩
    case _ => exact ⟨v1, v2, v3⟩

/-- Frame and closedness facts for one identifier-stripping visit. -/
theorem stripVisit_spec (h : Heap) (a n : Nat) (hna : n ≤ a) (hcl : HighClosed h n) :
    (∀ x, x < n → stripVisit h a x = h x) ∧ HighClosed (stripVisit h a) n := by
  simp only [stripVisit]
  cases hnode : h a with
  | none => exact ⟨fun x hx => rfl, hcl⟩
  | some node =>
    cases node with
    | scalar s => exact ⟨fun x hx => rfl, hcl⟩
    | arr items => exact ⟨fun x hx => rfl, hcl⟩
    | obj fs =>
      have hchOld : ∀ c ∈ nodeChildren (JNode.obj fs), n ≤ c := hcl a _ hna hnode
      refine ⟨?_, hcl.write a (.obj (fieldsDel (fieldsDel fs "id") "$id")) ?_⟩
      · intro x hx
        exact heapWrite_ne h a x (.obj (fieldsDel (fieldsDel fs "id") "$id")) (by omega)
      · intro c hc
        simp only [nodeChildren, List.mem_map] at hc
        obtain ⟨p, hpmem, hpc⟩ := hc
        subst hpc
        have hp2 : p ∈ fs := fieldsDel_subset "id" _ p
          (fieldsDel_subset "$id" _ p hpmem)
        exact hchOld p.2 (List.mem_map_of_mem Prod.snd hp2)

/-- Frame and closedness facts for the identifier-stripping item walk. -/
theorem stripWalkItemsF_spec (walk : Heap → Nat → Heap)
    (hwalk : ∀ (h : Heap) (a n : Nat), n ≤ a → HighClosed h n →
      (∀ x, x < n → walk h a x = h x) ∧ HighClosed (walk h a) n) :
    ∀ (as : List Nat) (h : Heap) (n : Nat), (∀ b ∈ as, n ≤ b) → HighClosed h n →
      (∀ x, x < n → stripWalkItemsF walk h as x = h x) ∧
      HighClosed (stripWalkItemsF walk h as) n := by
  intro as
  induction as with
  | nil =>
    intro h n hb hcl
    exact ⟨fun x hx => rfl, hcl⟩
  | cons b rest ih =>
    intro h n hb hcl
    have hbn : n ≤ b := hb b (List.mem_cons_self b rest)
    have hrest := fun (h2 : Heap) (hcl2 : HighClosed h2 n) =>
      ih h2 n (fun c hc => hb c (List.mem_cons_of_mem b hc)) hcl2
    simp only [stripWalkItemsF]
    cases hnode : h b with
    | none => exact hrest h hcl
    | some node =>
      cases node with
      | scalar s => exact hrest h hcl
      | arr items => exact hrest h hcl
      | obj fs =>
        obtain ⟨m1, m2⟩ := hwalk h b n hbn hcl
        obtain ⟨g1, g2⟩ := hrest (walk h b) m2
        exact ⟨fun x hx => (g1 x hx).trans (m1 x hx), g2⟩

/-- Frame and closedness facts for the identifier-stripping value walk. -/
theorem stripWalkValsF_spec (walk : Heap → Nat → Heap) (walkItems : Heap → List Nat → Heap)
    (hwalk : ∀ (h : Heap) (a n : Nat), n ≤ a → HighClosed h n →
      (∀ x, x < n → walk h a x = h x) ∧ HighClosed (walk h a) n)
    (hitems : ∀ (as : List Nat) (h : Heap) (n : Nat), (∀ b ∈ as, n ≤ b) → HighClosed h n →
      (∀ x, x < n → walkItems h as x = h x) ∧ HighClosed (walkItems h as) n) :
    ∀ (as : List Nat) (h : Heap) (n : Nat), (∀ b ∈ as, n ≤ b) → HighClosed h n →
      (∀ x, x < n → stripWalkValsF walk walkItems h as x = h x) ∧
      HighClosed (stripWalkValsF walk walkItems h as) n := by
  intro as
  induction as with
  | nil =>
    intro h n hb hcl
    exact ⟨fun x hx => rfl, hcl⟩
  | cons b rest ih =>
    intro h n hb hcl
    have hbn : n ≤ b := hb b (List.mem_cons_self b rest)
    have hrest := fun (h2 : Heap) (hcl2 : HighClosed h2 n) =>
      ih h2 n (fun c hc => hb c (List.mem_cons_of_mem b hc)) hcl2
    simp only [stripWalkValsF]
    cases hnode : h b with
    | none => exact hrest h hcl
    | some node =>
      cases node with
      | scalar s => exact hrest h hcl
      | obj fs =>
        obtain ⟨m1, m2⟩ := hwalk h b n hbn hcl
        obtain ⟨g1, g2⟩ := hrest (walk h b) m2
        exact ⟨fun x hx => (g1 x hx).trans (m1 x hx), g2⟩
      | arr items =>
        have hit : ∀ c ∈ items, n ≤ c := by
          intro c hc
          exact hcl b _ hbn hnode c (by simpa [nodeChildren] using hc)
        obtain ⟨m1, m2⟩ := hitems items h n hit hcl
        obtain ⟨g1, g2⟩ := hrest (walkItems h items) m2
        exact ⟨fun x hx => (g1 x hx).trans (m1 x hx), g2⟩

/-- Frame and closedness facts for the whole identifier-stripping walk. -/
theorem stripWalk_spec : ∀ (fuel : Nat) (h : Heap) (a n : Nat), n ≤ a → HighClosed h n →
    (∀ x, x < n → stripWalk fuel h a x = h x) ∧ HighClosed (stripWalk fuel h a) n := by
  intro fuel
  induction fuel with
  | zero =>
    intro h a n hna hcl
    exact ⟨fun x hx => rfl, hcl⟩
  | succ fuel ih =>
    intro h a n hna hcl
    obtain ⟨v1, v2⟩ := stripVisit_spec h a n hna hcl
    simp only [stripWalk]
    cases hnode : stripVisit h a a with
    | none => exact ⟨v1, v2⟩
    | some node =>
      cases node with
      | scalar s => exact ⟨v1, v2⟩
      | arr items => exact ⟨v1, v2⟩
      | obj fs =>
        have hch : ∀ b ∈ fs.map Prod.snd, n ≤ b := by
          intro b hb
          exact v2 a _ hna hnode b (by simpa [nodeChildren] using hb)
        obtain ⟨g1, g2⟩ := stripWalkValsF_spec (stripWalk fuel) (stripWalkItemsF (stripWalk fuel))
          ih (fun as2 h2 n2 => stripWalkItemsF_spec (stripWalk fuel) ih as2 h2 n2)
          (fs.map Prod.snd) (stripVisit h a) n hch v2
        exact ⟨fun x hx => (g1 x hx).trans (v1 x hx), g2⟩

/-- Reading a list of items that all lie in the closed high region depends
only on the high region, given the same fact for one node. -/
theorem readTreeListF_high (rec rec2 : Heap → Nat → Option JTree) (h h2 : Heap) (n : Nat)
    (hcl : HighClosed h n) (hag : ∀ x, n ≤ x → h2 x = h x)
    (hrec : ∀ a, n ≤ a → rec2 h2 a = rec h a) :
    ∀ as : List Nat, (∀ b ∈ as, n ≤ b) →
      readTreeListF rec2 h2 as = readTreeListF rec h as := by
  intro as
  induction as with
  | nil => intro hb; rfl
  | cons b rest ih =>
    intro hb
    simp only [readTreeListF]
    rw [hrec b (hb b (List.mem_cons_self b rest)),
      ih (fun c hc => hb c (List.mem_cons_of_mem b hc))]

/-- The same fact for an object's field list. -/
theorem readTreeFieldsF_high (rec rec2 : Heap → Nat → Option JTree) (h h2 : Heap) (n : Nat)
    (hcl : HighClosed h n) (hag : ∀ x, n ≤ x → h2 x = h x)
    (hrec : ∀ a, n ≤ a → rec2 h2 a = rec h a) :
    ∀ fs : List (String × Nat), (∀ p ∈ fs, n ≤ p.2) →
      readTreeFieldsF rec2 h2 fs = readTreeFieldsF rec h fs := by
  intro fs
  induction fs with
  | nil => intro hb; rfl
  | cons p rest ih =>
    obtain ⟨k, a⟩ := p
    intro hb
    simp only [readTreeFieldsF]
    rw [hrec a (hb (k, a) (List.mem_cons_self (k, a) rest)),
      ih (fun q hq => hb q (List.mem_cons_of_mem (k, a) hq))]

/-- Reading a document that lives entirely in the closed high region
depends only on the high region: heaps agreeing there read back the same
tree, for any fuel. -/
theorem readTree_high : ∀ (fuel : Nat) (h h2 : Heap) (n a : Nat), HighClosed h n → n ≤ a →
    (∀ x, n ≤ x → h2 x = h x) → readTree fuel h2 a = readTree fuel h a := by
  intro fuel
  induction fuel with
  | zero =>
    intro h h2 n a hcl hna hag
    rfl
  | succ fuel ih =>
    intro h h2 n a hcl hna hag
    simp only [readTree]
    rw [hag a hna]
    cases hnode : h a with
    | none => rfl
    | some node =>
      cases node with
      | scalar s => rfl
      | arr items =>
        exact congrArg (Option.map JTree.arr)
          (readTreeListF_high (readTree fuel) (readTree fuel) h h2 n hcl hag
            (fun b hbn => ih h h2 n b hcl hbn hag) items
            (fun b hb => hcl a _ hna hnode b (by simpa [nodeChildren] using hb)))
      | obj fs =>
        exact congrArg (Option.map JTree.obj)
          (readTreeFieldsF_high (readTree fuel) (readTree fuel) h h2 n hcl hag
            (fun b hbn => ih h h2 n b hcl hbn hag) fs
            (fun p hp => hcl a _ hna hnode p.2
              (by simp only [nodeChildren]; exact List.mem_map_of_mem Prod.snd hp)))

/-- C8: `NewDynamicTool` never mutates the caller's schema map. With the
caller's document living below the allocation watermark (every address at
or above `fresh` unallocated), a successful construction (i) leaves every
address of the caller's heap region — the whole document including all
nested substructures — exactly as it was, even though strict-mode
transformation and identifier stripping ran; (ii) places the tool's
schema entirely in the fresh region; and (iii) afterwards, any mutation
that touches only the caller's region (below the watermark) cannot change
what the tool's schema reads back as. -/
theorem C8_dynamic_schema_no_mutation :
    ∀ (fuel : Nat) (h : Heap) (root fresh : Nat) (strict : Bool)
      (h1 : Heap) (copyRoot f1 : Nat),
      (∀ x, fresh ≤ x → h x = none) →
      newDynamicToolSchema fuel h root fresh strict = some (h1, copyRoot, f1) →
      (∀ x, x < fresh → h1 x = h x) ∧
      fresh ≤ copyRoot ∧
      (∀ (h2 : Heap) (f2 : Nat), (∀ x, fresh ≤ x → h2 x = h1 x) →
        readTree f2 h2 copyRoot = readTree f2 h1 copyRoot) := by
  intro fuel h root fresh strict h1 copyRoot f1 hfree hcons
  have hcl0 : HighClosed h fresh := by
    intro b nb hnb hlook c hc
    rw [hfree b hnb] at hlook
    cases hlook
  simp only [newDynamicToolSchema] at hcons
  split at hcons
  · simp at hcons
  · rename_i hA cr fA hdc
    simp only [Option.some.injEq, Prod.mk.injEq] at hcons
    obtain ⟨hh, hcr, hf⟩ := hcons
    subst hh hcr hf
    obtain ⟨d1, ⟨d2, d3⟩, d4⟩ := deepCopy_spec fuel h root fresh hA cr fA hdc
    have hclA : HighClosed hA fresh := d4 fresh (le_refl _) hcl0
    have hffA : fresh ≤ fA := le_trans d2 (le_of_lt d3)
    have hR : (∀ x, x < fresh →
          (if strict then strictWalk fuel hA fA cr else (hA, fA)).1 x = hA x) ∧
        fresh ≤ (if strict then strictWalk fuel hA fA cr else (hA, fA)).2 ∧
        HighClosed (if strict then strictWalk fuel hA fA cr else (hA, fA)).1 fresh := by
      cases strict with
      | true =>
        obtain ⟨s1, s2, s3⟩ := strictWalk_spec fuel hA fA cr fresh hffA d2 hclA
        exact ⟨s1, le_trans hffA s2, s3⟩
      | false => exact ⟨fun x hx => rfl, hffA, hclA⟩
    obtain ⟨r1, r2, r3⟩ := hR
    obtain ⟨w1, w2⟩ := stripWalk_spec fuel
      (if strict then strictWalk fuel hA fA cr else (hA, fA)).1 cr fresh d2 r3
    refine ⟨?_, d2, ?_⟩
    · intro x hx
      rw [w1 x hx, r1 x hx, d1 x hx]
    · intro h2 f2 hag
      exact readTree_high f2
        (stripWalk fuel (if strict then strictWalk fuel hA fA cr else (hA, fA)).1 cr)
        h2 fresh cr w2 d2 hag

/-- Witness for C8: a concrete three-node caller document (an object with
a `properties` map and a `$id` entry) at addresses 0..2, watermark 3,
strict mode on: construction succeeds, the caller's three nodes are
untouched, and the tool schema root sits in the fresh region. -/
theorem C8_dynamic_schema_no_mutation_witness :
    ∃ (h1 : Heap) (copyRoot f1 : Nat),
      newDynamicToolSchema 10 exampleHeap 0 3 true = some (h1, copyRoot, f1) ∧
      (∀ x, x < 3 → h1 x = exampleHeap x) ∧ 3 ≤ copyRoot := by
  have hs : (newDynamicToolSchema 10 exampleHeap 0 3 true).isSome = true := rfl
  obtain ⟨v, hEq⟩ := Option.isSome_iff_exists.mp hs
  obtain ⟨h1, copyRoot, f1⟩ := v
  have main := C8_dynamic_schema_no_mutation 10 exampleHeap 0 3 true h1 copyRoot f1
    (fun x hx => by
      simp only [exampleHeap]
      rw [if_neg (by omega), if_neg (by omega), if_neg (by omega)])
    hEq
  exact ⟨h1, copyRoot, f1, hEq, main.1, main.2.1⟩

end Toolsy
